import Mathlib

/-- Year-month-day triple (CPython `datetime.date` internal fields). -/
structure Ymd where
  y : Int
  m : Int
  d : Int
deriving DecidableEq, Repr

/-- CPython `_is_leap`. -/
def isLeap (y : Int) : Prop := y % 4 = 0 ∧ (y % 100 ≠ 0 ∨ y % 400 = 0)

instance (y : Int) : Decidable (isLeap y) :=
  inferInstanceAs (Decidable (y % 4 = 0 ∧ (y % 100 ≠ 0 ∨ y % 400 = 0)))

/-- CPython `_DAYS_BEFORE_MONTH` table. -/
def daysBeforeMonthTable (m : Int) : Int :=
  if m = 1 then 0 else if m = 2 then 31 else if m = 3 then 59 else if m = 4 then 90
  else if m = 5 then 120 else if m = 6 then 151 else if m = 7 then 181
  else if m = 8 then 212 else if m = 9 then 243 else if m = 10 then 273
  else if m = 11 then 304 else 334

/-- CPython `_DAYS_IN_MONTH` table. -/
def daysInMonthTable (m : Int) : Int :=
  if m = 1 then 31 else if m = 2 then 28 else if m = 3 then 31 else if m = 4 then 30
  else if m = 5 then 31 else if m = 6 then 30 else if m = 7 then 31
  else if m = 8 then 31 else if m = 9 then 30 else if m = 10 then 31
  else if m = 11 then 30 else 31

/-- CPython `_days_in_month`. -/
def daysInMonth (y m : Int) : Int :=
  if m = 2 ∧ isLeap y then 29 else daysInMonthTable m

/-- CPython `_days_before_year`. -/
def daysBeforeYear (y : Int) : Int :=
  (y - 1) * 365 + (y - 1) / 4 - (y - 1) / 100 + (y - 1) / 400

/-- CPython `_days_before_month`. -/
def daysBeforeMonth (y m : Int) : Int :=
  daysBeforeMonthTable m + (if 2 < m ∧ isLeap y then 1 else 0)

/-- CPython `_ymd2ord`: proleptic Gregorian ordinal of a date (0001-01-01 is 1). -/
def ymd2ord (y m d : Int) : Int :=
  daysBeforeYear y + daysBeforeMonth y m + d

/-- Month/day extraction step of CPython `_ord2ymd`: `n` is the 0-based day offset
into the year and `leap` is the leap-year flag computed there. -/
def doy2md (leap : Bool) (n : Int) : Int × Int :=
  let month := (n + 50) / 32
  let preceding := daysBeforeMonthTable month + (if 2 < month ∧ leap = true then 1 else 0)
  if n < preceding then
    (month - 1,
      n - (preceding - (daysInMonthTable (month - 1)
        + (if month - 1 = 2 ∧ leap = true then 1 else 0))) + 1)
  else
    (month, n - preceding + 1)

/-- Core of CPython `_ord2ymd` after the four divmod steps. -/
def ord2ymdAux (n400 n100 n4 n1 n : Int) : Ymd :=
  if n1 = 4 ∨ n100 = 4 then ⟨n400 * 400 + n100 * 100 + n4 * 4 + n1, 12, 31⟩
  else
    ⟨n400 * 400 + 1 + n100 * 100 + n4 * 4 + n1,
      (doy2md ((n1 == 3) && (!(n4 == 24) || (n100 == 3))) n).1,
      (doy2md ((n1 == 3) && (!(n4 == 24) || (n100 == 3))) n).2⟩

/-- CPython `_ord2ymd`: inverse of `ymd2ord`. -/
def ord2ymd (nn : Int) : Ymd :=
  ord2ymdAux ((nn - 1) / 146097) ((nn - 1) % 146097 / 36524) ((nn - 1) % 146097 % 36524 / 1461)
    ((nn - 1) % 146097 % 36524 % 1461 / 365) ((nn - 1) % 146097 % 36524 % 1461 % 365)


set_option maxRecDepth 10000 in
set_option maxHeartbeats 2000000 in
/-- Correctness of the day-of-year step, checked exhaustively over the 365 possible
offsets and both leap flags. -/
theorem doy_correct : ∀ (leap : Bool) (k : Nat), k < 365 →
    1 ≤ (doy2md leap (k : Int)).1 ∧ (doy2md leap (k : Int)).1 ≤ 12 ∧
    1 ≤ (doy2md leap (k : Int)).2 ∧
    (doy2md leap (k : Int)).2 ≤ daysInMonthTable (doy2md leap (k : Int)).1
      + (if (doy2md leap (k : Int)).1 = 2 ∧ leap = true then 1 else 0) ∧
    daysBeforeMonthTable (doy2md leap (k : Int)).1
      + (if 2 < (doy2md leap (k : Int)).1 ∧ leap = true then 1 else 0)
      + (doy2md leap (k : Int)).2 = (k : Int) + 1 := by decide

set_option maxHeartbeats 1000000 in
theorem aux_correct (n400 n100 n4 n1 n Y M D : Int)
    (h100 : 0 ≤ n100) (h100' : n100 ≤ 4) (h4 : 0 ≤ n4) (h4' : n4 ≤ 24)
    (h1 : 0 ≤ n1) (h1' : n1 ≤ 4) (hn : 0 ≤ n) (hn' : n ≤ 364)
    (hq : n100 = 4 → n4 = 0 ∧ n1 = 0 ∧ n = 0)
    (hq1 : n1 = 4 → n = 0)
    (hq2 : n4 = 24 → n1 ≤ 3)
    (h : ord2ymdAux n400 n100 n4 n1 n = ⟨Y, M, D⟩) :
    ymd2ord Y M D = n400 * 146097 + n100 * 36524 + n4 * 1461 + n1 * 365 + n + 1 ∧
    1 ≤ M ∧ M ≤ 12 ∧ 1 ≤ D ∧ D ≤ daysInMonth Y M := by
  unfold ord2ymdAux at h
  by_cases hs : n1 = 4 ∨ n100 = 4
  · rw [if_pos hs] at h
    obtain ⟨rfl, rfl, rfl⟩ := (Ymd.mk.injEq _ _ _ _ _ _).mp h
    have h334 : daysBeforeMonthTable 12 = 334 := by norm_num [daysBeforeMonthTable]
    have h31 : daysInMonthTable 12 = 31 := by norm_num [daysInMonthTable]
    refine ⟨?_, by norm_num, by norm_num, by norm_num, ?_⟩
    · simp only [ymd2ord, daysBeforeMonth, daysBeforeYear, h334]
      by_cases hL : isLeap (n400 * 400 + n100 * 100 + n4 * 4 + n1)
      · rw [if_pos ⟨by norm_num, hL⟩]; unfold isLeap at hL; omega
      · rw [if_neg (fun hc => hL hc.2)]; unfold isLeap at hL; omega
    · simp only [daysInMonth]
      rw [if_neg (fun hc => absurd hc.1 (by norm_num)), h31]
  · rw [if_neg hs] at h
    obtain ⟨rfl, rfl, rfl⟩ := (Ymd.mk.injEq _ _ _ _ _ _).mp h
    have hiff : (((n1 == 3) && (!(n4 == 24) || (n100 == 3))) = true) ↔
        (n1 = 3 ∧ (n4 ≠ 24 ∨ n100 = 3)) := by simp
    have hk : ((n.toNat : Nat) : Int) = n := by omega
    rcases Bool.eq_false_or_eq_true ((n1 == 3) && (!(n4 == 24) || (n100 == 3))) with hb | hb
    · have hf : n1 = 3 ∧ (n4 ≠ 24 ∨ n100 = 3) := hiff.mp hb
      have hdoy := doy_correct true n.toNat (by omega)
      rw [hk] at hdoy
      rw [hb]
      obtain ⟨hd1, hd2, hd3, hd4, hd5⟩ := hdoy
      simp only [eq_self_iff_true, and_true] at hd4 hd5
      have hleap : isLeap (n400 * 400 + 1 + n100 * 100 + n4 * 4 + n1) := by
        unfold isLeap; omega
      refine ⟨?_, hd1, hd2, hd3, ?_⟩
      · simp only [ymd2ord, daysBeforeMonth, daysBeforeYear]
        by_cases hm2 : 2 < (doy2md true n).1
        · rw [if_pos hm2] at hd5
          rw [if_pos ⟨hm2, hleap⟩]
          omega
        · rw [if_neg hm2] at hd5
          rw [if_neg (fun hc => hm2 hc.1)]
          omega
      · simp only [daysInMonth]
        by_cases hm2 : (doy2md true n).1 = 2
        · rw [if_pos hm2] at hd4
          rw [if_pos ⟨hm2, hleap⟩]
          rw [hm2] at hd4
          norm_num [daysInMonthTable] at hd4
          omega
        · rw [if_neg hm2] at hd4
          rw [if_neg (fun hc => hm2 hc.1)]
          omega
    · have hnf : ¬(n1 = 3 ∧ (n4 ≠ 24 ∨ n100 = 3)) := fun hp => by
        rw [hiff.mpr hp] at hb; simp at hb
      have hdoy := doy_correct false n.toNat (by omega)
      rw [hk] at hdoy
      rw [hb]
      obtain ⟨hd1, hd2, hd3, hd4, hd5⟩ := hdoy
      simp only [Bool.false_eq_true, and_false, if_false] at hd4 hd5
      have hnleap : ¬ isLeap (n400 * 400 + 1 + n100 * 100 + n4 * 4 + n1) := by
        unfold isLeap; omega
      refine ⟨?_, hd1, hd2, hd3, ?_⟩
      · simp only [ymd2ord, daysBeforeMonth, daysBeforeYear]
        rw [if_neg (fun hc => hnleap hc.2)]
        omega
      · simp only [daysInMonth]
        rw [if_neg (fun hc => hnleap hc.2)]
        omega

theorem ord2ymd_spec (n : Int) :
    ymd2ord (ord2ymd n).y (ord2ymd n).m (ord2ymd n).d = n ∧
    1 ≤ (ord2ymd n).m ∧ (ord2ymd n).m ≤ 12 ∧ 1 ≤ (ord2ymd n).d ∧
    (ord2ymd n).d ≤ daysInMonth (ord2ymd n).y (ord2ymd n).m := by
  have h : ord2ymdAux ((n - 1) / 146097) ((n - 1) % 146097 / 36524)
      ((n - 1) % 146097 % 36524 / 1461) ((n - 1) % 146097 % 36524 % 1461 / 365)
      ((n - 1) % 146097 % 36524 % 1461 % 365)
      = ⟨(ord2ymd n).y, (ord2ymd n).m, (ord2ymd n).d⟩ := rfl
  have h2 := aux_correct _ _ _ _ _ _ _ _ (by omega) (by omega) (by omega) (by omega)
    (by omega) (by omega) (by omega) (by omega) (by omega) (by omega) (by omega) h
  obtain ⟨e1, e2, e3, e4, e5⟩ := h2
  exact ⟨by omega, e2, e3, e4, e5⟩

/-- Python `d.year` for an ordinal. -/
def yearOf (n : Int) : Int := (ord2ymd n).y

/-- Python `d.month` for an ordinal. -/
def monthOf (n : Int) : Int := (ord2ymd n).m

/-- Python `d.day` for an ordinal. -/
def dayOf (n : Int) : Int := (ord2ymd n).d

theorem ord_of_parts (n : Int) : ymd2ord (yearOf n) (monthOf n) (dayOf n) = n :=
  (ord2ymd_spec n).1

theorem parts_valid (n : Int) :
    1 ≤ monthOf n ∧ monthOf n ≤ 12 ∧ 1 ≤ dayOf n ∧
    dayOf n ≤ daysInMonth (yearOf n) (monthOf n) :=
  (ord2ymd_spec n).2

theorem daysInMonth_bounds (y m : Int) (h1 : 1 ≤ m) (h2 : m ≤ 12) :
    28 ≤ daysInMonth y m ∧ daysInMonth y m ≤ 31 := by
  unfold daysInMonth
  by_cases hl : m = 2 ∧ isLeap y
  · rw [if_pos hl]; norm_num
  · rw [if_neg hl]
    interval_cases m <;> norm_num [daysInMonthTable]

theorem ymd2ord_day (y m d : Int) : ymd2ord y m d = ymd2ord y m 1 + d - 1 := by
  unfold ymd2ord; ring

theorem dbm_step (y m : Int) (h1 : 1 ≤ m) (h2 : m ≤ 11) :
    daysBeforeMonth y (m + 1) = daysBeforeMonth y m + daysInMonth y m := by
  by_cases hL : isLeap y <;>
    (interval_cases m <;>
      norm_num [daysBeforeMonth, daysInMonth, daysBeforeMonthTable, daysInMonthTable, hL])

theorem year_step (y : Int) :
    ymd2ord (y + 1) 1 1 = ymd2ord y 12 (daysInMonth y 12 + 1) := by
  by_cases hL : isLeap y
  · have hL' := hL
    unfold isLeap at hL'
    norm_num [ymd2ord, daysBeforeMonth, daysBeforeYear, daysBeforeMonthTable,
      daysInMonth, daysInMonthTable, hL]
    omega
  · have hL' := hL
    unfold isLeap at hL'
    norm_num [ymd2ord, daysBeforeMonth, daysBeforeYear, daysBeforeMonthTable,
      daysInMonth, daysInMonthTable, hL]
    omega

/-- Ordinal of the first day of the month with absolute month index `i`
(index `12 * year + month`). -/
def msOrd (i : Int) : Int := ymd2ord ((i - 1) / 12) ((i - 1) % 12 + 1) 1

theorem msOrd_eq (y m : Int) (h1 : 1 ≤ m) (h2 : m ≤ 12) : msOrd (12 * y + m) = ymd2ord y m 1 := by
  unfold msOrd
  rw [show (12 * y + m - 1) / 12 = y from by omega, show (12 * y + m - 1) % 12 + 1 = m from by omega]

theorem msOrd_step (i : Int) :
    msOrd (i + 1) = msOrd i + daysInMonth ((i - 1) / 12) ((i - 1) % 12 + 1) := by
  by_cases h12 : (i - 1) % 12 + 1 = 12
  · have e1 : msOrd (i + 1) = ymd2ord ((i - 1) / 12 + 1) 1 1 := by
      unfold msOrd
      rw [show (i + 1 - 1) / 12 = (i - 1) / 12 + 1 from by omega,
        show (i + 1 - 1) % 12 + 1 = 1 from by omega]
    have e2 : msOrd i = ymd2ord ((i - 1) / 12) 12 1 := by
      unfold msOrd; rw [h12]
    rw [e1, year_step, e2, ymd2ord_day, h12]
    omega
  · have e1 : msOrd (i + 1) = ymd2ord ((i - 1) / 12) ((i - 1) % 12 + 1 + 1) 1 := by
      unfold msOrd
      rw [show (i + 1 - 1) / 12 = (i - 1) / 12 from by omega,
        show (i + 1 - 1) % 12 + 1 = (i - 1) % 12 + 1 + 1 from by omega]
    rw [e1]
    unfold msOrd ymd2ord
    rw [dbm_step _ _ (by omega) (by omega)]
    ring

theorem msOrd_step_ge (i : Int) : msOrd i + 28 ≤ msOrd (i + 1) := by
  rw [msOrd_step]
  have := daysInMonth_bounds ((i - 1) / 12) ((i - 1) % 12 + 1) (by omega) (by omega)
  omega

theorem msOrd_strict_mono (i j : Int) (h : i < j) : msOrd i < msOrd j := by
  have key : ∀ j : Int, i + 1 ≤ j → msOrd i < msOrd j := by
    refine Int.le_induction ?_ ?_
    · have := msOrd_step_ge i; omega
    · intro k hk ih
      have := msOrd_step_ge k
      omega
  exact key j (by omega)

theorem msOrd_mono_iff (i j : Int) : msOrd i ≤ msOrd j ↔ i ≤ j := by
  constructor
  · intro h
    by_contra hc
    have := msOrd_strict_mono j i (by omega)
    omega
  · intro h
    rcases eq_or_lt_of_le h with rfl | hlt
    · omega
    · have := msOrd_strict_mono i j hlt; omega

/-- An ordinal built from a valid triple lies in its month window. -/
theorem ord_window (y m d : Int) (h1 : 1 ≤ m) (h2 : m ≤ 12) (h3 : 1 ≤ d)
    (h4 : d ≤ daysInMonth y m) :
    msOrd (12 * y + m) ≤ ymd2ord y m d ∧ ymd2ord y m d < msOrd (12 * y + m + 1) := by
  have e1 := msOrd_eq y m h1 h2
  have e2 := msOrd_step (12 * y + m)
  have e3 : (12 * y + m - 1) / 12 = y := by omega
  have e4 : (12 * y + m - 1) % 12 + 1 = m := by omega
  rw [e3, e4] at e2
  have e5 := ymd2ord_day y m d
  omega

/-- `ord2ymd` is a two-sided inverse: reconstruction from any valid triple. -/
theorem ord2ymd_of_valid (y m d : Int) (h1 : 1 ≤ m) (h2 : m ≤ 12) (h3 : 1 ≤ d)
    (h4 : d ≤ daysInMonth y m) :
    ord2ymd (ymd2ord y m d) = ⟨y, m, d⟩ := by
  obtain ⟨r1, v1, v2, v3, v4⟩ := ord2ymd_spec (ymd2ord y m d)
  obtain ⟨w1, w2⟩ := ord_window y m d h1 h2 h3 h4
  obtain ⟨w1', w2'⟩ := ord_window (ord2ymd (ymd2ord y m d)).y (ord2ymd (ymd2ord y m d)).m
    (ord2ymd (ymd2ord y m d)).d v1 v2 v3 v4
  rw [r1] at w1' w2'
  have hidx : 12 * y + m = 12 * (ord2ymd (ymd2ord y m d)).y + (ord2ymd (ymd2ord y m d)).m := by
    by_contra hne
    rcases lt_or_gt_of_ne hne with hlt | hgt
    · have := msOrd_mono_iff (12 * y + m + 1) (12 * (ord2ymd (ymd2ord y m d)).y
        + (ord2ymd (ymd2ord y m d)).m)
      omega
    · have := msOrd_mono_iff (12 * (ord2ymd (ymd2ord y m d)).y
        + (ord2ymd (ymd2ord y m d)).m + 1) (12 * y + m)
      omega
  have hy : (ord2ymd (ymd2ord y m d)).y = y := by omega
  have hm : (ord2ymd (ymd2ord y m d)).m = m := by omega
  have hd : (ord2ymd (ymd2ord y m d)).d = d := by
    have e6 := ymd2ord_day y m d
    have e7 := ymd2ord_day (ord2ymd (ymd2ord y m d)).y (ord2ymd (ymd2ord y m d)).m
      (ord2ymd (ymd2ord y m d)).d
    rw [hy, hm] at e7
    rw [hy, hm] at r1
    omega
  cases hord : ord2ymd (ymd2ord y m d)
  rw [hord] at hy hm hd
  simp_all

/-- Absolute month index `12 * year + month` of an ordinal's month. -/
def monthIdx (n : Int) : Int := 12 * yearOf n + monthOf n

/-- Embedding of Python `date(d.year, d.month, 1)` (`_month_start` in the services). -/
def monthStartOrd (n : Int) : Int := ymd2ord (yearOf n) (monthOf n) 1

/-- Embedding of `_next_month_start` (analytics_service / advice_service / alerts). -/
def nextMonthStartOrd (n : Int) : Int :=
  if 12 < monthOf n + 1 then ymd2ord (yearOf n + 1) 1 1
  else ymd2ord (yearOf n) (monthOf n + 1) 1

theorem monthStartOrd_eq (n : Int) : monthStartOrd n = msOrd (monthIdx n) := by
  obtain ⟨v1, v2, v3, v4⟩ := parts_valid n
  unfold monthStartOrd monthIdx
  rw [msOrd_eq _ _ v1 v2]

theorem nextMonthStartOrd_eq (n : Int) : nextMonthStartOrd n = msOrd (monthIdx n + 1) := by
  obtain ⟨v1, v2, v3, v4⟩ := parts_valid n
  unfold nextMonthStartOrd monthIdx
  by_cases h12 : monthOf n = 12
  · rw [if_pos (by omega)]
    rw [show 12 * yearOf n + monthOf n + 1 = 12 * (yearOf n + 1) + 1 from by omega]
    rw [msOrd_eq _ _ (by omega) (by omega)]
  · rw [if_neg (by omega)]
    rw [show 12 * yearOf n + monthOf n + 1 = 12 * yearOf n + (monthOf n + 1) from by omega]
    rw [msOrd_eq _ _ (by omega) (by omega)]

/-- Every ordinal lies in the month window delimited by its month start and the next. -/
theorem month_window (n : Int) :
    monthStartOrd n ≤ n ∧ n < nextMonthStartOrd n := by
  obtain ⟨v1, v2, v3, v4⟩ := parts_valid n
  have hw := ord_window (yearOf n) (monthOf n) (dayOf n) v1 v2 v3 v4
  rw [ord_of_parts n] at hw
  rw [monthStartOrd_eq, nextMonthStartOrd_eq]
  unfold monthIdx
  exact hw

theorem monthIdx_mono (a b : Int) (h : a ≤ b) : monthIdx a ≤ monthIdx b := by
  by_contra hc
  have h1 := month_window a
  have h2 := month_window b
  rw [monthStartOrd_eq, nextMonthStartOrd_eq] at h1 h2
  have := (msOrd_mono_iff (monthIdx b + 1) (monthIdx a)).mpr (by omega)
  omega

theorem msOrd_parts (i : Int) :
    yearOf (msOrd i) = (i - 1) / 12 ∧ monthOf (msOrd i) = (i - 1) % 12 + 1 ∧
    dayOf (msOrd i) = 1 := by
  have h := ord2ymd_of_valid ((i - 1) / 12) ((i - 1) % 12 + 1) 1 (by omega) (by omega)
    (by omega) (by
      have := daysInMonth_bounds ((i - 1) / 12) ((i - 1) % 12 + 1) (by omega) (by omega)
      omega)
  unfold yearOf monthOf dayOf
  unfold msOrd
  rw [h]
  exact ⟨rfl, rfl, rfl⟩

theorem monthIdx_msOrd (i : Int) : monthIdx (msOrd i) = i := by
  obtain ⟨p1, p2, p3⟩ := msOrd_parts i
  unfold monthIdx
  rw [p1, p2]
  omega

theorem monthStartOrd_msOrd (i : Int) : monthStartOrd (msOrd i) = msOrd i := by
  rw [monthStartOrd_eq, monthIdx_msOrd]

/-- Ordinal of January 1st of year `y`. -/
def jan1 (y : Int) : Int := ymd2ord y 1 1

theorem jan1_eq (y : Int) : jan1 y = msOrd (12 * y + 1) := by
  unfold jan1
  rw [msOrd_eq _ _ (by omega) (by omega)]

theorem year_window (n : Int) : jan1 (yearOf n) ≤ n ∧ n < jan1 (yearOf n + 1) := by
  obtain ⟨v1, v2, v3, v4⟩ := parts_valid n
  have h1 := month_window n
  rw [monthStartOrd_eq, nextMonthStartOrd_eq] at h1
  have h2 := (msOrd_mono_iff (12 * yearOf n + 1) (monthIdx n)).mpr (by unfold monthIdx; omega)
  have h3 := (msOrd_mono_iff (monthIdx n + 1) (12 * (yearOf n + 1) + 1)).mpr
    (by unfold monthIdx; omega)
  rw [jan1_eq, jan1_eq]
  omega

theorem year_length (y : Int) :
    jan1 (y + 1) - jan1 y = 365 + (if isLeap y then 1 else 0) := by
  by_cases hL : isLeap y
  · have hL' := hL
    unfold isLeap at hL'
    rw [if_pos hL]
    unfold jan1 ymd2ord daysBeforeYear daysBeforeMonth
    rw [if_neg (by norm_num), if_neg (by norm_num)]
    omega
  · have hL' := hL
    unfold isLeap at hL'
    rw [if_neg hL]
    unfold jan1 ymd2ord daysBeforeYear daysBeforeMonth
    rw [if_neg (by norm_num), if_neg (by norm_num)]
    omega

theorem year_length_bounds (y : Int) : 365 ≤ jan1 (y + 1) - jan1 y ∧ jan1 (y + 1) - jan1 y ≤ 366 := by
  have := year_length y
  by_cases hL : isLeap y
  · rw [if_pos hL] at this; omega
  · rw [if_neg hL] at this; omega

theorem jan1_mono (a b : Int) (h : a ≤ b) : jan1 a ≤ jan1 b := by
  rw [jan1_eq, jan1_eq]
  exact (msOrd_mono_iff _ _).mpr (by omega)

/-- `yearOf` is determined by the January-1st window. -/
theorem yearOf_unique (n y : Int) (h1 : jan1 y ≤ n) (h2 : n < jan1 (y + 1)) : yearOf n = y := by
  have hw := year_window n
  by_contra hc
  rcases lt_or_gt_of_ne hc with hlt | hgt
  · have := jan1_mono (yearOf n + 1) y (by omega)
    omega
  · have := jan1_mono (y + 1) (yearOf n) (by omega)
    omega

/-- CPython `_isoweek1monday`: Monday of ISO week 1 of `year`. -/
def isoweek1monday (year : Int) : Int :=
  if 3 < (ymd2ord year 1 1 + 6) % 7 then ymd2ord year 1 1 - (ymd2ord year 1 1 + 6) % 7 + 7
  else ymd2ord year 1 1 - (ymd2ord year 1 1 + 6) % 7

/-- CPython `date.isocalendar()` (ISO year and week; the weekday component is dropped). -/
def isoYearWeek (n : Int) : Int × Int :=
  if (n - isoweek1monday (yearOf n)) / 7 < 0 then
    (yearOf n - 1, (n - isoweek1monday (yearOf n - 1)) / 7 + 1)
  else if 52 ≤ (n - isoweek1monday (yearOf n)) / 7 ∧ isoweek1monday (yearOf n + 1) ≤ n then
    (yearOf n + 1, 1)
  else (yearOf n, (n - isoweek1monday (yearOf n)) / 7 + 1)

theorem w1m_facts (y : Int) :
    jan1 y - 3 ≤ isoweek1monday y ∧ isoweek1monday y ≤ jan1 y + 3 ∧
    isoweek1monday y % 7 = 1 := by
  unfold isoweek1monday jan1
  split_ifs <;> omega

theorem w1m_lt (a b : Int) (h : a < b) : isoweek1monday a + 359 ≤ isoweek1monday b := by
  have fa := w1m_facts a
  have fb := w1m_facts b
  have g := year_length_bounds a
  have m := jan1_mono (a + 1) b (by omega)
  omega

theorem w1m_mono (a b : Int) (h : a ≤ b) : isoweek1monday a ≤ isoweek1monday b := by
  rcases eq_or_lt_of_le h with rfl | hlt
  · omega
  · have := w1m_lt a b hlt; omega

theorem isoYearWeek_spec (n : Int) :
    isoweek1monday (isoYearWeek n).1 ≤ n ∧ n < isoweek1monday ((isoYearWeek n).1 + 1) ∧
    (isoYearWeek n).2 = (n - isoweek1monday (isoYearWeek n).1) / 7 + 1 := by
  have yw := year_window n
  have f0 := w1m_facts (yearOf n - 1)
  have f1 := w1m_facts (yearOf n)
  have f2 := w1m_facts (yearOf n + 1)
  have f3 := w1m_facts (yearOf n + 1 + 1)
  have g0 := year_length_bounds (yearOf n - 1)
  have g1 := year_length_bounds (yearOf n)
  have g2 := year_length_bounds (yearOf n + 1)
  unfold isoYearWeek
  split_ifs with c1 c2
  · rw [show yearOf n - 1 + 1 = yearOf n from by ring] at g0
    refine ⟨by dsimp only; omega, ?_, by dsimp only⟩
    dsimp only
    rw [show yearOf n - 1 + 1 = yearOf n from by ring]
    omega
  · refine ⟨by dsimp only; omega, by dsimp only; omega, by dsimp only; omega⟩
  · refine ⟨by dsimp only; omega, by dsimp only; omega, by dsimp only⟩

/-- The ISO key of any day equals the ISO key of the Monday of its week
(`d - d.weekday()` in ordinals). -/
theorem isoYearWeek_monday (n : Int) :
    isoYearWeek (n - (n + 6) % 7) = isoYearWeek n := by
  have s1 := isoYearWeek_spec n
  have s2 := isoYearWeek_spec (n - (n + 6) % 7)
  have f1 := w1m_facts (isoYearWeek n).1
  have f1' := w1m_facts ((isoYearWeek n).1 + 1)
  have f2 := w1m_facts (isoYearWeek (n - (n + 6) % 7)).1
  have f2' := w1m_facts ((isoYearWeek (n - (n + 6) % 7)).1 + 1)
  have hyr : (isoYearWeek (n - (n + 6) % 7)).1 = (isoYearWeek n).1 := by
    by_contra hc
    rcases lt_or_gt_of_ne hc with hlt | hgt
    · have := w1m_mono ((isoYearWeek (n - (n + 6) % 7)).1 + 1) (isoYearWeek n).1 (by omega)
      omega
    · have := w1m_mono ((isoYearWeek n).1 + 1) (isoYearWeek (n - (n + 6) % 7)).1 (by omega)
      omega
  have hwk : (isoYearWeek (n - (n + 6) % 7)).2 = (isoYearWeek n).2 := by
    rw [hyr] at s2
    omega
  exact Prod.ext hyr hwk

/-- ISO keys are injective on Mondays (ordinals `≡ 1 mod 7`). -/
theorem isoYearWeek_inj (p q : Int) (hp : p % 7 = 1) (hq : q % 7 = 1)
    (h : isoYearWeek p = isoYearWeek q) : p = q := by
  have s1 := isoYearWeek_spec p
  have s2 := isoYearWeek_spec q
  have f1 := w1m_facts (isoYearWeek q).1
  rw [h] at s1
  omega

/-! ### Generic list machinery: stable sorting (Python `sorted` / SQL ORDER BY),
insertion-ordered dictionaries (Python `dict`), first-maximum (Python `max`). -/

/-- Stable insertion into a sorted list: the new element goes before the first
element it compares `le` to, so earlier elements win ties (stability). -/
def insertSorted {α : Type} (le : α → α → Bool) (x : α) : List α → List α
  | [] => [x]
  | y :: ys => if le x y then x :: y :: ys else y :: insertSorted le x ys

/-- Stable sort by a total preorder, as a right fold of stable insertions. -/
def sortBy {α : Type} (le : α → α → Bool) (l : List α) : List α :=
  l.foldr (insertSorted le) []

theorem insertSorted_perm {α : Type} (le : α → α → Bool) (x : α) (l : List α) :
    (insertSorted le x l).Perm (x :: l) := by
  induction l with
  | nil => simp [insertSorted]
  | cons y ys ih =>
    unfold insertSorted
    by_cases h : le x y
    · rw [if_pos h]
    · rw [if_neg h]
      exact (List.Perm.cons y ih).trans (List.Perm.swap x y ys)

theorem sortBy_perm {α : Type} (le : α → α → Bool) (l : List α) : (sortBy le l).Perm l := by
  induction l with
  | nil => simp [sortBy]
  | cons y ys ih =>
    unfold sortBy at ih ⊢
    exact (insertSorted_perm le y _).trans (List.Perm.cons y ih)

theorem insertSorted_sorted {α : Type} (le : α → α → Bool)
    (htot : ∀ a b, le a b = true ∨ le b a = true)
    (htrans : ∀ a b c, le a b = true → le b c = true → le a c = true)
    (x : α) (l : List α)
    (hl : l.Pairwise (fun a b => le a b = true)) :
    (insertSorted le x l).Pairwise (fun a b => le a b = true) := by
  induction l with
  | nil => simp [insertSorted]
  | cons y ys ih =>
    rcases List.pairwise_cons.mp hl with ⟨hy, hys⟩
    unfold insertSorted
    by_cases h : le x y
    · rw [if_pos h]
      refine List.pairwise_cons.mpr ⟨?_, hl⟩
      intro b hb
      rcases List.mem_cons.mp hb with rfl | hbys
      · exact h
      · exact htrans x y b h (hy b hbys)
    · rw [if_neg h]
      refine List.pairwise_cons.mpr ⟨?_, ih hys⟩
      intro b hb
      rcases List.mem_cons.mp ((insertSorted_perm le x ys).mem_iff.mp hb) with hbx | hbys
      · rcases htot x y with hxy | hyx
        · exact absurd hxy h
        · rw [hbx]; exact hyx
      · exact hy b hbys

theorem sortBy_sorted {α : Type} (le : α → α → Bool)
    (htot : ∀ a b, le a b = true ∨ le b a = true)
    (htrans : ∀ a b c, le a b = true → le b c = true → le a c = true)
    (l : List α) :
    (sortBy le l).Pairwise (fun a b => le a b = true) := by
  induction l with
  | nil => simp [sortBy]
  | cons y ys ih =>
    unfold sortBy at ih ⊢
    exact insertSorted_sorted le htot htrans y _ ih

/-- Python-dict style accumulation: add `v` at `key`, appending new keys at the end
(insertion order preserved, first occurrence wins the slot). -/
def accumAssoc {κ : Type} [DecidableEq κ] (l : List (κ × ℚ)) (key : κ) (v : ℚ) :
    List (κ × ℚ) :=
  match l with
  | [] => [(key, v)]
  | (k, x) :: rest => if k = key then (k, x + v) :: rest else (k, x) :: accumAssoc rest key v

/-- Total stored at a key (0 when absent), i.e. `defaultdict(float)` lookup. -/
def assocGet {κ : Type} [DecidableEq κ] (l : List (κ × ℚ)) (key : κ) : ℚ :=
  match l with
  | [] => 0
  | (k, x) :: rest => if k = key then x else assocGet rest key

theorem accumAssoc_keys {κ : Type} [DecidableEq κ] (l : List (κ × ℚ)) (key : κ) (v : ℚ) :
    (accumAssoc l key v).map Prod.fst =
      if key ∈ l.map Prod.fst then l.map Prod.fst else l.map Prod.fst ++ [key] := by
  induction l with
  | nil => simp [accumAssoc]
  | cons p rest ih =>
    obtain ⟨k, x⟩ := p
    unfold accumAssoc
    by_cases h : k = key
    · subst h
      simp
    · rw [if_neg h]
      simp only [List.map_cons, ih]
      by_cases hmem : key ∈ rest.map Prod.fst
      · rw [if_pos hmem, if_pos (by simp [hmem])]
      · rw [if_neg hmem, if_neg (by simp [Ne.symm h, hmem])]
        simp

theorem accumAssoc_get_same {κ : Type} [DecidableEq κ] (l : List (κ × ℚ)) (key : κ) (v : ℚ) :
    assocGet (accumAssoc l key v) key = assocGet l key + v := by
  induction l with
  | nil => simp [accumAssoc, assocGet]
  | cons p rest ih =>
    obtain ⟨k, x⟩ := p
    unfold accumAssoc
    by_cases h : k = key
    · subst h
      simp [assocGet]
    · rw [if_neg h]
      simp only [assocGet, if_neg h, ih]

theorem accumAssoc_get_other {κ : Type} [DecidableEq κ] (l : List (κ × ℚ)) (key q : κ) (v : ℚ)
    (hne : q ≠ key) : assocGet (accumAssoc l key v) q = assocGet l q := by
  induction l with
  | nil => simp [accumAssoc, assocGet, Ne.symm hne]
  | cons p rest ih =>
    obtain ⟨k, x⟩ := p
    unfold accumAssoc
    by_cases h : k = key
    · subst h
      simp [assocGet, Ne.symm hne]
    · rw [if_neg h]
      simp only [assocGet, ih]

theorem assocGet_of_mem {κ : Type} [DecidableEq κ] :
    ∀ (l : List (κ × ℚ)) (k : κ) (v : ℚ), (k, v) ∈ l →
      (l.map Prod.fst).Nodup → assocGet l k = v := by
  intro l
  induction l with
  | nil =>
    intro k v h _
    cases h
  | cons p rest ih =>
    intro k v h hnd
    rcases List.mem_cons.mp h with rfl | h'
    · simp [assocGet]
    · obtain ⟨k', v'⟩ := p
      unfold assocGet
      by_cases hk : k' = k
      · exfalso
        have hnotin : k' ∉ rest.map Prod.fst := by
          simp only [List.map_cons] at hnd
          exact (List.nodup_cons.mp hnd).1
        have hkm : k ∈ rest.map Prod.fst := List.mem_map.mpr ⟨(k, v), h', rfl⟩
        rw [hk] at hnotin
        exact hnotin hkm
      · rw [if_neg hk]
        apply ih k v h'
        simp only [List.map_cons] at hnd
        exact (List.nodup_cons.mp hnd).2

/-- Python `max(l, key=...)` keeps the first maximal element: a later element
replaces the current best only when strictly greater. -/
def maxBySnd {κ : Type} (l : List (κ × ℚ)) : Option (κ × ℚ) :=
  l.foldl (fun acc x =>
    match acc with
    | none => some x
    | some m => if m.2 < x.2 then some x else some m) none

/-- Python `str.lower()` on ASCII data (`String.toLower`, in a form that the
kernel can evaluate). -/
def strLower (s : String) : String := String.mk (s.data.map Char.toLower)

/-! ### Data model (db/models.py).  Dates are proleptic Gregorian ordinals
(`date.toordinal()`); `Numeric(12,2)` amounts are rationals. -/

/-- A row of the `transactions` table. -/
structure Tx where
  id : Int
  userId : Int
  date : Int
  amount : ℚ
  category : String
  type : String
deriving DecidableEq, Repr

/-- A row of the `budgets` table; `month` is the parsed `YYYY-MM` label
(the string form is injective on zero-padded year/month pairs). -/
structure Budget where
  id : Int
  userId : Int
  month : Int × Int
  category : String
  amount : ℚ
deriving DecidableEq, Repr

/-- A row of the `goals` table. -/
structure Goal where
  id : Int
  userId : Int
  name : String
  targetAmount : ℚ
  currentAmount : ℚ
  targetDate : Option Int
deriving DecidableEq, Repr

/-- `DateRange` dataclass (inclusive); `end` is a Lean keyword, hence `end_`. -/
structure DateRange where
  start : Int
  end_ : Int
deriving DecidableEq, Repr

/-- Python `round(x, 2)`: round to nearest multiple of 1/100, ties to even. -/
def roundHalfEven (q : ℚ) : Int :=
  if q - ⌊q⌋ < 1/2 then ⌊q⌋
  else if 1/2 < q - ⌊q⌋ then ⌊q⌋ + 1
  else if ⌊q⌋ % 2 = 0 then ⌊q⌋ else ⌊q⌋ + 1

def round2 (q : ℚ) : ℚ := (roundHalfEven (q * 100) : ℚ) / 100

/-- A rational is an exact 2-decimal amount (`Numeric(12,2)` values). -/
def isCenti (q : ℚ) : Prop := (q * 100).den = 1

theorem roundHalfEven_intCast (z : Int) : roundHalfEven (z : ℚ) = z := by
  unfold roundHalfEven
  rw [Int.floor_intCast]
  rw [if_pos (by norm_num)]

theorem round2_centi (q : ℚ) (h : isCenti q) : round2 q = q := by
  unfold isCenti at h
  unfold round2
  have hnum : ((q * 100).num : ℚ) = q * 100 := by
    conv_rhs => rw [← Rat.num_div_den (q * 100)]
    rw [h]
    simp
  rw [← hnum, roundHalfEven_intCast, hnum]
  field_simp

theorem isCenti_add (a b : ℚ) (ha : isCenti a) (hb : isCenti b) : isCenti (a + b) := by
  unfold isCenti at *
  rw [add_mul]
  have h1 : a * 100 = ((a * 100).num : ℚ) := by
    conv_lhs => rw [← Rat.num_div_den (a * 100)]
    rw [ha]; simp
  have h2 : b * 100 = ((b * 100).num : ℚ) := by
    conv_lhs => rw [← Rat.num_div_den (b * 100)]
    rw [hb]; simp
  rw [h1, h2, ← Int.cast_add]
  exact Rat.den_intCast _

theorem isCenti_zero : isCenti 0 := by
  unfold isCenti
  norm_num

theorem isCenti_neg (a : ℚ) (ha : isCenti a) : isCenti (-a) := by
  unfold isCenti at *
  rw [neg_mul]
  rw [Rat.neg_den]
  exact ha

theorem isCenti_abs (a : ℚ) (ha : isCenti a) : isCenti |a| := by
  rcases abs_choice a with h | h <;> rw [h]
  · exact ha
  · exact isCenti_neg a ha

theorem isCenti_sub (a b : ℚ) (ha : isCenti a) (hb : isCenti b) : isCenti (a - b) := by
  rw [sub_eq_add_neg]
  exact isCenti_add a (-b) ha (isCenti_neg b hb)

theorem isCenti_sum (l : List ℚ) (h : ∀ q ∈ l, isCenti q) : isCenti l.sum := by
  induction l with
  | nil => simpa using isCenti_zero
  | cons x xs ih =>
    rw [List.sum_cons]
    exact isCenti_add x xs.sum (h x (by simp)) (ih fun q hq => h q (by simp [hq]))

/-! ### analytics_service.py -/

/-- `compute_date_range`: defaulting of the open-ended request (the four
`start`/`end` presence cases of the if/elif chain). -/
def resolveRange (today : Int) (start? end? : Option Int) : Int × Int :=
  match start?, end? with
  | none, none => (today - 29, today)
  | none, some e => (e - 29, e)
  | some s, none => (s, today)
  | some s, some e => (s, e)

/-- `compute_date_range`: normalize `(period, start, end)` to an effective period
and an inclusive `DateRange`. -/
def compute_date_range (today : Int) (period : Option String)
    (start? end? : Option Int) : String × DateRange :=
  let se := resolveRange today start? end?
  let s := if se.2 < se.1 then se.2 else se.1
  let e := if se.2 < se.1 then se.1 else se.2
  let ip : String :=
    match period with
    | some p => if p = "day" ∨ p = "week" ∨ p = "month" then p
        else if e - s ≤ 31 then "day" else "month"
    | none => if e - s ≤ 31 then "day" else "month"
  (ip, ⟨s, e⟩)

/-- SQL `ORDER BY date ASC, id ASC`. -/
def txLe (a b : Tx) : Bool :=
  decide (a.date < b.date) || (decide (a.date = b.date) && decide (a.id ≤ b.id))

/-- `_fetch_transactions`: user/date-range filter plus the deterministic ordering. -/
def fetch_transactions (txs : List Tx) (userId : Int) (rng : DateRange) : List Tx :=
  sortBy txLe (txs.filter fun t =>
    decide (t.userId = userId) && decide (rng.start ≤ t.date) && decide (t.date ≤ rng.end_))

/-- `_is_income`: `(tx.type or "").lower() == "income" or (tx.amount or 0) > 0`. -/
def isIncome (t : Tx) : Bool := (strLower t.type == "income") || decide (0 < t.amount)

/-- Running total of income amounts (`total_income` accumulation). -/
def totalIncome (txs : List Tx) : ℚ :=
  ((txs.filter fun t => isIncome t).map fun t => t.amount).sum

/-- Running positive total of expenses (`total_expense_abs` accumulation). -/
def totalExpenses (txs : List Tx) : ℚ :=
  ((txs.filter fun t => !isIncome t).map fun t => |t.amount|).sum

/-- `cat_spend` dict: positive expense totals per category, insertion-ordered. -/
def catSpend (txs : List Tx) : List (String × ℚ) :=
  txs.foldl (fun acc t => if isIncome t then acc else accumAssoc acc t.category |t.amount|) []

/-- Trend bucket label (`bucket_key` in `compute_summary`); the three string
formats are injective per period, so the label is kept structured. -/
inductive BKey where
  | day (d : Int)
  | week (y w : Int)
  | month (y m : Int)
deriving DecidableEq, Repr

def bucket_key (p : String) (d : Int) : BKey :=
  if p = "day" then BKey.day d
  else if p = "week" then BKey.week (isoYearWeek d).1 (isoYearWeek d).2
  else BKey.month (yearOf d) (monthOf d)

/-- The `trend` defaultdict: per-bucket income and (positive) expense sums,
accumulated over the fetched transactions. -/
def trendAccum (p : String) (txs : List Tx) : BKey → ℚ × ℚ :=
  txs.foldl (fun acc t =>
    if isIncome t then
      fun k => if k = bucket_key p t.date then ((acc k).1 + t.amount, (acc k).2) else acc k
    else
      fun k => if k = bucket_key p t.date then ((acc k).1, (acc k).2 + |t.amount|) else acc k)
    (fun _ => (0, 0))

/-- One entry of the dense trend series. -/
structure TrendEntry where
  period : BKey
  income : ℚ
  expenses : ℚ
  net : ℚ
deriving DecidableEq, Repr

def mkEntry (acc : BKey → ℚ × ℚ) (k : BKey) : TrendEntry :=
  { period := k, income := round2 (acc k).1, expenses := round2 (acc k).2,
    net := round2 ((acc k).1 - (acc k).2) }

/-- Day-period loop: `cur = start; while cur <= end: emit; cur += 1 day`. -/
def buildTrendDay (acc : BKey → ℚ × ℚ) (cur e : Int) : List TrendEntry :=
  if h : cur ≤ e then mkEntry acc (bucket_key "day" cur) :: buildTrendDay acc (cur + 1) e
  else []
termination_by (e + 1 - cur).toNat
decreasing_by omega

/-- Week-period loop: starts at the Monday on/before `start`, steps 7 days. -/
def buildTrendWeek (acc : BKey → ℚ × ℚ) (cur e : Int) : List TrendEntry :=
  if h : cur ≤ e then mkEntry acc (bucket_key "week" cur) :: buildTrendWeek acc (cur + 7) e
  else []
termination_by (e + 1 - cur).toNat
decreasing_by omega

/-- Month-period loop: steps through month starts up to the month start of `end`. -/
def buildTrendMonth (acc : BKey → ℚ × ℚ) (cur last : Int) : List TrendEntry :=
  if h : cur ≤ last then
    mkEntry acc (bucket_key "month" cur) :: buildTrendMonth acc (nextMonthStartOrd cur) last
  else []
termination_by (last + 1 - cur).toNat
decreasing_by
  have := (month_window cur).2
  omega

/-- Case-insensitive category-name ordering used for `category_breakdown`. -/
def nameLe (a b : String × ℚ) : Bool := !decide (strLower b.1 < strLower a.1)

/-- Result shape of `compute_summary`. -/
structure Summary where
  rangeStart : Int
  rangeEnd : Int
  period : String
  totalsIncome : ℚ
  totalsExpenses : ℚ
  totalsNet : ℚ
  savingsRate : ℚ
  avgDailySpend : ℚ
  categoryBreakdown : List (String × ℚ)
  trend : List TrendEntry

/-- `compute_summary`, scoped to `userId`, over the full transaction table `txs`. -/
def compute_summary (today : Int) (txs : List Tx) (userId : Int)
    (period : Option String) (start? end? : Option Int) : Summary :=
  let pr := compute_date_range today period start? end?
  let p := pr.1
  let rng := pr.2
  let ftxs := fetch_transactions txs userId rng
  let totalIncomeV := totalIncome ftxs
  let totalExpenseAbs := totalExpenses ftxs
  let daysSpan := rng.end_ - rng.start + 1
  let netCashFlow := totalIncomeV - totalExpenseAbs
  let savingsRate := if 0 < totalIncomeV then netCashFlow / totalIncomeV * 100 else 0
  let avgDailySpend := if 0 < daysSpan then totalExpenseAbs / daysSpan else 0
  let acc := trendAccum p ftxs
  let trendSeries :=
    if p = "day" then buildTrendDay acc rng.start rng.end_
    else if p = "week" then buildTrendWeek acc (rng.start - (rng.start + 6) % 7) rng.end_
    else buildTrendMonth acc (monthStartOrd rng.start) (monthStartOrd rng.end_)
  { rangeStart := rng.start
    rangeEnd := rng.end_
    period := p
    totalsIncome := round2 totalIncomeV
    totalsExpenses := round2 totalExpenseAbs
    totalsNet := round2 netCashFlow
    savingsRate := round2 savingsRate
    avgDailySpend := round2 avgDailySpend
    categoryBreakdown := (sortBy nameLe (catSpend ftxs)).map fun kv => (kv.1, round2 kv.2)
    trend := trendSeries }

/-- `day_spend` dict of `compute_behaviors`: positive expense totals per day. -/
def daySpend (txs : List Tx) : List (Int × ℚ) :=
  txs.foldl (fun acc t => if isIncome t then acc else accumAssoc acc t.date |t.amount|) []

/-- Result shape of `compute_behaviors`. -/
structure Behaviors where
  rangeStart : Int
  rangeEnd : Int
  topSpendingCategories : List (String × ℚ)
  mostExpensiveDay : Option (Int × ℚ)
  incomeDaysCount : Nat

/-- Descending-by-amount comparison for `sorted(..., reverse=True)` (stable). -/
def amtDesc {κ : Type} (a b : κ × ℚ) : Bool := decide (b.2 ≤ a.2)

/-- `compute_behaviors`. -/
def compute_behaviors (today : Int) (txs : List Tx) (userId : Int)
    (start? end? : Option Int) : Behaviors :=
  let pr := compute_date_range today none start? end?
  let rng := pr.2
  let ftxs := fetch_transactions txs userId rng
  let topCats := (sortBy amtDesc (catSpend ftxs)).take 5
  { rangeStart := rng.start
    rangeEnd := rng.end_
    topSpendingCategories := topCats.map fun kv => (kv.1, round2 kv.2)
    mostExpensiveDay := (maxBySnd (daySpend ftxs)).map fun p => (p.1, round2 p.2)
    incomeDaysCount := ((ftxs.filter fun t => isIncome t).map fun t => t.date).dedup.length }

/-! ### api/routers/alerts.py -/

/-- `_next_month_start` month arithmetic on a parsed `YYYY-MM` pair. -/
def nextMonthYM (y m : Int) : Int × Int := if 12 < m + 1 then (y + 1, 1) else (y, m + 1)

/-- The SQL filter of the per-category spend aggregation: this user's rows with
`type == "expense"` and date in `[month_start, next_month_start)`. -/
def monthExpenseRows (txs : List Tx) (userId y m : Int) : List Tx :=
  txs.filter fun t =>
    decide (t.userId = userId) && (t.type == "expense") &&
    decide (ymd2ord y m 1 ≤ t.date) &&
    decide (t.date < ymd2ord (nextMonthYM y m).1 (nextMonthYM y m).2 1)

/-- Distinct categories in first-occurrence order (`GROUP BY category`; the final
response is re-sorted, so the group order is irrelevant to every claim). -/
def categoriesOf (l : List Tx) : List String :=
  l.foldl (fun acc t => if t.category ∈ acc then acc else acc ++ [t.category]) []

/-- `spent_by_cat`: absolute value of the signed per-category sum. -/
def spentByCat (l : List Tx) : List (String × ℚ) :=
  (categoriesOf l).map fun c =>
    (c, |((l.filter fun t => t.category == c).map fun t => t.amount).sum|)

/-- `OverspendingItem` response model. -/
structure OverspendingItem where
  month : Int × Int
  category : String
  budget : ℚ
  spent : ℚ
  utilizationPct : ℚ
  severity : String
deriving DecidableEq, Repr

/-- `_severity`. -/
def severity (utilizationPct : ℚ) : String :=
  if 100 ≤ utilizationPct then "critical"
  else if 90 ≤ utilizationPct then "warning"
  else "normal"

/-- Division with the `ZeroDivisionError` branch explicit. -/
def checkedDiv (a b : ℚ) : Option ℚ := if b = 0 then none else some (a / b)

/-- `util = (spent / budget_amt * 100.0) if budget_amt > 0 else 0.0`, with the
division run through `checkedDiv` to expose the (unreachable) error branch. -/
def utilizationChecked (spent budget : ℚ) : Option ℚ :=
  if 0 < budget then (checkedDiv spent budget).map (fun q => q * 100) else some 0

/-- Same computation with the division total (the branch actually taken). -/
def utilization (spent budget : ℚ) : ℚ :=
  if 0 < budget then spent / budget * 100 else 0

/-- Final ordering: utilization descending, then category name case-insensitively. -/
def itemLe (a b : OverspendingItem) : Bool :=
  decide (b.utilizationPct < a.utilizationPct) ||
  (decide (a.utilizationPct = b.utilizationPct) &&
    !decide (strLower b.category < strLower a.category))

/-- `overspending_alerts` for month `(y, m)` (already-parsed `YYYY-MM`). -/
def overspending_alerts (txs : List Tx) (budgets : List Budget) (userId y m : Int) :
    List OverspendingItem :=
  let monthBudgets := budgets.filter fun b =>
    decide (b.userId = userId) && decide (b.month = (y, m))
  let sbc := spentByCat (monthExpenseRows txs userId y m)
  let budgetItems := monthBudgets.map fun b =>
    ({ month := (y, m), category := b.category, budget := round2 b.amount,
       spent := round2 (assocGet sbc b.category),
       utilizationPct := round2 (utilization (assocGet sbc b.category) b.amount),
       severity := severity (utilization (assocGet sbc b.category) b.amount) }
      : OverspendingItem)
  let covered := monthBudgets.map fun b => b.category
  let extraItems := (sbc.filter fun kv => !decide (kv.1 ∈ covered)).map fun kv =>
    ({ month := (y, m), category := kv.1, budget := 0, spent := round2 kv.2,
       utilizationPct := 0, severity := "normal" } : OverspendingItem)
  sortBy itemLe (budgetItems ++ extraItems)

/-! ### advice_service.py -/

/-- `_last_30_days_range`. -/
def lastThirtyRange (today : Int) : DateRange := ⟨today - 29, today⟩

/-- `_aggregate_spending_patterns`: total income, per-category spend, and average
daily spend over the span between the first and last transaction. -/
def aggregate_spending_patterns (txs : List Tx) : ℚ × List (String × ℚ) × ℚ :=
  match txs with
  | [] => (0, [], 0)
  | t0 :: rest =>
    let lastTx := (t0 :: rest).getLast (List.cons_ne_nil t0 rest)
    let span0 := lastTx.date - t0.date + 1
    let daysSpan := if span0 ≤ 0 then 1 else span0
    (totalIncome (t0 :: rest), catSpend (t0 :: rest),
      totalExpenses (t0 :: rest) / (daysSpan : ℚ))

/-- One suggested category reduction. -/
structure Reduction where
  category : String
  current : ℚ
  suggestedReductionPct : ℚ
  reducedAmount : ℚ
deriving DecidableEq, Repr

/-- Result shape of `compute_savings_advice`. -/
structure SavingsAdvice where
  period : String
  rangeStart : Int
  rangeEnd : Int
  currentIncome : ℚ
  currentExpenses : ℚ
  currentNet : ℚ
  targetsDaily : ℚ
  targetsWeekly : ℚ
  targetsMonthly : ℚ
  categoryReductions : List Reduction

/-- The fixed reduction-percentage table `pcts = [10.0, 7.0, 5.0, 3.0, 3.0]`. -/
def pcts : List ℚ := [10, 7, 5, 3, 3]

/-- `compute_savings_advice`. -/
def compute_savings_advice (today : Int) (txs : List Tx) (userId : Int)
    (period : Option String) : SavingsAdvice :=
  let rng := lastThirtyRange today
  let ftxs := fetch_transactions txs userId rng
  let agg := aggregate_spending_patterns ftxs
  let income := agg.1
  let avgDailySpend := agg.2.2
  let totalSpend := (agg.2.1.map fun kv => kv.2).sum
  let net := income - totalSpend
  let top := sortBy amtDesc agg.2.1
  let reductions := ((top.take 5).zip pcts).map fun x =>
    ({ category := x.1.1, current := round2 x.1.2, suggestedReductionPct := x.2,
       reducedAmount := round2 (x.1.2 * (x.2 / 100)) } : Reduction)
  let reductionTotal := (reductions.map fun r => r.reducedAmount).sum
  let monthlyTargetNet := net + reductionTotal
  let dailyCurrentNet := if 0 < income then income / 30 - avgDailySpend else -avgDailySpend
  let dailyTargetNet := dailyCurrentNet + reductionTotal / 30
  let weeklyTargetNet := dailyTargetNet * 7
  let cp0 := strLower (period.getD "month")
  let chosenPeriod := if cp0 = "day" ∨ cp0 = "week" ∨ cp0 = "month" then cp0 else "month"
  { period := chosenPeriod
    rangeStart := rng.start
    rangeEnd := rng.end_
    currentIncome := round2 income
    currentExpenses := round2 totalSpend
    currentNet := round2 net
    targetsDaily := round2 dailyTargetNet
    targetsWeekly := round2 weeklyTargetNet
    targetsMonthly := round2 monthlyTargetNet
    categoryReductions := reductions }

/-- `add_months` helper of `compute_goals_plan`: step to the month start, advance
`months` whole months, land on day 28. -/
def addMonthsAux : Int → Nat → Int
  | res, 0 => res
  | res, Nat.succ k => addMonthsAux (nextMonthStartOrd res) k

def add_months (d : Int) (months : Nat) : Int :=
  let res := addMonthsAux (monthStartOrd d) months
  ymd2ord (yearOf res) (monthOf res) 28

/-- `epsilon = 1e-6`. -/
def epsilon : ℚ := 1/1000000

/-- One entry of the goals plan. -/
structure GoalPlanItem where
  id : Int
  name : String
  targetAmount : ℚ
  currentAmount : ℚ
  targetDate : Option Int
  remaining : ℚ
  monthsToTarget : Option ℚ
  projectedCompletion : Option Int
  status : String
deriving DecidableEq, Repr

/-- Result shape of `compute_goals_plan`. -/
structure GoalsPlan where
  rangeStart : Int
  rangeEnd : Int
  baselineMonthlyNet : ℚ
  baselineAvgDailySpend : ℚ
  goals : List GoalPlanItem

/-- Per-goal body of the `compute_goals_plan` loop.  ISO-string comparisons of
zero-padded dates coincide with ordinal comparisons, so dates stay ordinals. -/
def goalItem (today : Int) (monthlyNet : ℚ) (g : Goal) : GoalPlanItem :=
  let remaining := max 0 (g.targetAmount - g.currentAmount)
  if monthlyNet ≤ epsilon then
    { id := g.id, name := g.name, targetAmount := round2 g.targetAmount,
      currentAmount := round2 g.currentAmount, targetDate := g.targetDate,
      remaining := round2 remaining, monthsToTarget := none,
      projectedCompletion := none, status := "no_net" }
  else
    let mt := if 0 < remaining then round2 (remaining / monthlyNet) else 0
    let wm := if 0 < mt ∧ 1/1000000000 < |mt - (⌊mt⌋ : ℚ)| then ⌊mt⌋ + 1 else ⌊mt⌋
    let proj := add_months today wm.toNat
    let status :=
      match g.targetDate with
      | some td =>
          if proj ≤ ymd2ord (yearOf td) (monthOf td) (min (dayOf td) 28) then "ahead"
          else if 0 < remaining then "behind" else "ahead"
      | none => "on_track"
    { id := g.id, name := g.name, targetAmount := round2 g.targetAmount,
      currentAmount := round2 g.currentAmount, targetDate := g.targetDate,
      remaining := round2 remaining, monthsToTarget := some mt,
      projectedCompletion := some proj, status := status }

/-- `compute_goals_plan` (the route always computes the baseline from the same
current date it projects from). -/
def compute_goals_plan (today : Int) (txs : List Tx) (goals : List Goal)
    (userId : Int) : GoalsPlan :=
  let rng := lastThirtyRange today
  let ftxs := fetch_transactions txs userId rng
  let agg := aggregate_spending_patterns ftxs
  let totalSpend := (agg.2.1.map fun kv => kv.2).sum
  let monthlyNet := agg.1 - totalSpend
  { rangeStart := rng.start
    rangeEnd := rng.end_
    baselineMonthlyNet := round2 monthlyNet
    baselineAvgDailySpend := round2 agg.2.2
    goals := (goals.filter fun g => decide (g.userId = userId)).map (goalItem today monthlyNet) }

/-! ### Claim support lemmas -/

theorem severity_spec (u : ℚ) :
    (severity u = "critical" ↔ 100 ≤ u) ∧
    (severity u = "warning" ↔ 90 ≤ u ∧ u < 100) ∧
    (severity u = "normal" ↔ u < 90) := by
  unfold severity
  by_cases h1 : 100 ≤ u
  · rw [if_pos h1]
    refine ⟨⟨fun _ => h1, fun _ => rfl⟩, ⟨fun hc => ?_, fun hc => ?_⟩, ⟨fun hc => ?_, fun hc => ?_⟩⟩
    · exact absurd hc (by decide)
    · linarith [hc.2]
    · exact absurd hc (by decide)
    · linarith
  · rw [if_neg h1]
    by_cases h2 : 90 ≤ u
    · rw [if_pos h2]
      refine ⟨⟨fun hc => ?_, fun hc => ?_⟩, ⟨fun _ => ⟨h2, by linarith⟩, fun _ => rfl⟩,
        ⟨fun hc => ?_, fun hc => ?_⟩⟩
      · exact absurd hc (by decide)
      · exact absurd hc h1
      · exact absurd hc (by decide)
      · linarith
    · rw [if_neg h2]
      refine ⟨⟨fun hc => ?_, fun hc => ?_⟩, ⟨fun hc => ?_, fun hc => ?_⟩,
        ⟨fun _ => by linarith, fun _ => rfl⟩⟩
      · exact absurd hc (by decide)
      · exact absurd hc h1
      · exact absurd hc (by decide)
      · exact absurd hc.1 h2

theorem round2_zero : round2 0 = 0 := by
  unfold round2 roundHalfEven
  norm_num

/-- Concrete per-category spend used by the C1/C6 scenarios. -/
theorem sbcEval :
    spentByCat (monthExpenseRows
      [{ id := 1, userId := 1, date := 5, amount := 99996/100,
         category := "Food", type := "expense" }] 1 1 1)
      = [("Food", 99996/100)] := by
  norm_num [spentByCat, monthExpenseRows, categoriesOf, nextMonthYM, ymd2ord,
    daysBeforeYear, daysBeforeMonth, daysBeforeMonthTable, isLeap, List.filter]

/-- Concrete alerts output used by the C1 counterexample. -/
theorem alertsEval :
    overspending_alerts
      [{ id := 1, userId := 1, date := 5, amount := 99996/100,
         category := "Food", type := "expense" }]
      [{ id := 1, userId := 1, month := (1, 1), category := "Food", amount := 1000 }]
      1 1 1
      = [{ month := (1, 1), category := "Food", budget := 1000, spent := 99996/100,
           utilizationPct := 100, severity := "warning" }] := by
  have h1 : utilization (24999/25 : ℚ) 1000 = 24999/250 := by
    unfold utilization
    rw [if_pos (by norm_num)]
    norm_num
  have h2 : round2 (24999/250 : ℚ) = 100 := by
    unfold round2 roundHalfEven
    norm_num [Int.floor_eq_iff]
  have h3 : severity (24999/250 : ℚ) = "warning" := by
    unfold severity
    rw [if_neg (by norm_num), if_pos (by norm_num)]
  have h4 : round2 (24999/25 : ℚ) = 24999/25 := by
    apply round2_centi
    unfold isCenti
    norm_num
  have h5 : round2 (1000 : ℚ) = 1000 := by
    apply round2_centi
    unfold isCenti
    norm_num
  simp only [overspending_alerts, sbcEval, List.filter, List.map]
  norm_num [assocGet, h1, h2, h3, h4, h5, sortBy, insertSorted]

/-- C1: the claim as stated is false: severity is computed from the unrounded
utilization, while the reported `utilization_pct` is rounded; at
spent = 999.96 against budget = 1000 the reported percentage is 100.0 yet the
severity is "warning". -/
theorem C1_counterexample :
    ¬ ∀ it ∈ overspending_alerts
        [{ id := 1, userId := 1, date := 5, amount := 99996/100,
           category := "Food", type := "expense" }]
        [{ id := 1, userId := 1, month := (1, 1), category := "Food", amount := 1000 }]
        1 1 1,
        (it.severity = "critical" ↔ 100 ≤ it.utilizationPct) ∧
        (it.severity = "warning" ↔ 90 ≤ it.utilizationPct ∧ it.utilizationPct < 100) ∧
        (it.severity = "normal" ↔ it.utilizationPct < 90) := by
  intro hclaim
  have h1 := hclaim
    { month := (1, 1), category := "Food", budget := 1000, spent := 99996/100,
      utilizationPct := 100, severity := "warning" }
    (by rw [alertsEval]; exact List.mem_singleton_self _)
  have h2 := h1.1.mpr (by norm_num)
  exact absurd h2 (by decide)

theorem categoriesOf_fold_nodup :
    ∀ (l : List Tx) (acc : List String), acc.Nodup →
      (l.foldl (fun acc t => if t.category ∈ acc then acc else acc ++ [t.category]) acc).Nodup := by
  intro l
  induction l with
  | nil =>
    intro acc h
    simpa using h
  | cons t rest ih =>
    intro acc h
    simp only [List.foldl_cons]
    by_cases hm : t.category ∈ acc
    · rw [if_pos hm]
      exact ih acc h
    · rw [if_neg hm]
      refine ih _ (List.nodup_append.mpr ⟨h, List.nodup_singleton _, ?_⟩)
      intro a ha hb
      rw [List.mem_singleton.mp hb] at ha
      exact hm ha

theorem categoriesOf_nodup (l : List Tx) : (categoriesOf l).Nodup :=
  categoriesOf_fold_nodup l [] List.nodup_nil

theorem spentByCat_keys (l : List Tx) : (spentByCat l).map Prod.fst = categoriesOf l := by
  unfold spentByCat
  rw [List.map_map]
  rw [show (Prod.fst ∘ fun c : String =>
      (c, |((l.filter fun t => t.category == c).map fun t => t.amount).sum|)) = id from
    funext fun c => rfl]
  exact List.map_id _

/-- Inside `spent_by_cat` every category appears once, so the list lookup used
by the budget loop returns exactly the stored per-category total. -/
theorem spentByCat_get (l : List Tx) (kv : String × ℚ) (h : kv ∈ spentByCat l) :
    assocGet (spentByCat l) kv.1 = kv.2 :=
  assocGet_of_mem _ kv.1 kv.2 (by rw [Prod.mk.eta]; exact h)
    (by rw [spentByCat_keys]; exact categoriesOf_nodup l)

/-- C1 (amended): every returned item carries the data it was computed from:
its spent field is the rounded per-category signed-abs sum of the month,
`spent0 = abs-sum at it.category`, its budget comes from the matching budget
row's amount (`budget0`), or is 0 with no matching row; the reported
`utilization_pct` is `round(u, 2)` for the unrounded
`u = utilization spent0 budget0 = spent0 / budget0 * 100` (0 when
`budget0 ≤ 0`), and severity is classified from that same unrounded `u`:
critical iff `u ≥ 100`, warning iff `90 ≤ u < 100`, normal otherwise. -/
theorem C1_severity_matches_unrounded_utilization (txs : List Tx) (budgets : List Budget)
    (userId y m : Int) :
    ∀ it ∈ overspending_alerts txs budgets userId y m,
      ∃ spent0 budget0 : ℚ,
        spent0 = assocGet (spentByCat (monthExpenseRows txs userId y m)) it.category ∧
        ((∃ b ∈ budgets, b.userId = userId ∧ b.month = (y, m) ∧ b.category = it.category ∧
            budget0 = b.amount ∧ it.budget = round2 b.amount) ∨
          (budget0 = 0 ∧ it.budget = 0)) ∧
        it.spent = round2 spent0 ∧
        it.utilizationPct = round2 (utilization spent0 budget0) ∧
        it.severity = severity (utilization spent0 budget0) ∧
        (it.severity = "critical" ↔ 100 ≤ utilization spent0 budget0) ∧
        (it.severity = "warning" ↔ 90 ≤ utilization spent0 budget0 ∧
          utilization spent0 budget0 < 100) ∧
        (it.severity = "normal" ↔ utilization spent0 budget0 < 90) := by
  intro it hit
  simp only [overspending_alerts] at hit
  have hmem := (sortBy_perm itemLe _).mem_iff.mp hit
  rcases List.mem_append.mp hmem with hb | he
  · rcases List.mem_map.mp hb with ⟨b, hbmem, rfl⟩
    have hbf := List.mem_filter.mp hbmem
    have hbp := hbf.2
    simp only [Bool.and_eq_true, decide_eq_true_eq] at hbp
    exact ⟨assocGet (spentByCat (monthExpenseRows txs userId y m)) b.category, b.amount,
      rfl, Or.inl ⟨b, hbf.1, hbp.1, hbp.2, rfl, rfl, rfl⟩, rfl, rfl, rfl,
      (severity_spec _).1, (severity_spec _).2.1, (severity_spec _).2.2⟩
  · rcases List.mem_map.mp he with ⟨kv, hkv, rfl⟩
    have hkv2 : kv ∈ spentByCat (monthExpenseRows txs userId y m) :=
      List.mem_of_mem_filter hkv
    have hget : assocGet (spentByCat (monthExpenseRows txs userId y m)) kv.1 = kv.2 :=
      spentByCat_get _ kv hkv2
    have hu : utilization (assocGet (spentByCat (monthExpenseRows txs userId y m)) kv.1) 0
        = 0 := by
      unfold utilization
      rw [if_neg (by norm_num)]
    refine ⟨assocGet (spentByCat (monthExpenseRows txs userId y m)) kv.1, 0,
      rfl, Or.inr ⟨rfl, rfl⟩, ?_, ?_, ?_, ?_, ?_, ?_⟩
    · rw [hget]
    · rw [hu, round2_zero]
    · rw [hu]
      norm_num [severity]
    · rw [hu]
      exact ⟨fun hc => absurd (show ("normal" : String) = "critical" from hc) (by decide),
        fun hc => absurd hc (by norm_num)⟩
    · rw [hu]
      exact ⟨fun hc => absurd (show ("normal" : String) = "warning" from hc) (by decide),
        fun hc => absurd hc.1 (by norm_num)⟩
    · rw [hu]
      exact ⟨fun _ => by norm_num, fun _ => rfl⟩

/-- The transaction, budget row and returned item of the C1 boundary scenario. -/
def txC1 : Tx :=
  { id := 1, userId := 1, date := 5, amount := 99996/100, category := "Food", type := "expense" }

def bC1 : Budget :=
  { id := 1, userId := 1, month := (1, 1), category := "Food", amount := 1000 }

def itemC1 : OverspendingItem :=
  { month := (1, 1), category := "Food", budget := 1000, spent := 99996/100,
    utilizationPct := 100, severity := "warning" }

/-- C1 witness: the amended statement applied to the boundary scenario. -/
theorem C1_severity_witness :
    itemC1 ∈ overspending_alerts [txC1] [bC1] 1 1 1 ∧
    (∃ spent0 budget0 : ℚ,
      spent0 = assocGet (spentByCat (monthExpenseRows [txC1] 1 1 1)) itemC1.category ∧
      ((∃ b ∈ [bC1], b.userId = 1 ∧ b.month = (1, 1) ∧ b.category = itemC1.category ∧
          budget0 = b.amount ∧ itemC1.budget = round2 b.amount) ∨
        (budget0 = 0 ∧ itemC1.budget = 0)) ∧
      itemC1.spent = round2 spent0 ∧
      itemC1.utilizationPct = round2 (utilization spent0 budget0) ∧
      itemC1.severity = severity (utilization spent0 budget0) ∧
      (itemC1.severity = "critical" ↔ 100 ≤ utilization spent0 budget0) ∧
      (itemC1.severity = "warning" ↔ 90 ≤ utilization spent0 budget0 ∧
        utilization spent0 budget0 < 100) ∧
      (itemC1.severity = "normal" ↔ utilization spent0 budget0 < 90)) := by
  have halerts : overspending_alerts [txC1] [bC1] 1 1 1 = [itemC1] := alertsEval
  have hmem : itemC1 ∈ overspending_alerts [txC1] [bC1] 1 1 1 := by
    rw [halerts]
    exact List.mem_singleton_self _
  exact ⟨hmem, C1_severity_matches_unrounded_utilization [txC1] [bC1] 1 1 1 itemC1 hmem⟩

/-- C6: a category with spend in the month but no budget row yields the explicit
item with budget 0, utilization 0 and severity "normal"; and the utilization
computation with its division made checked never hits the error branch. -/
theorem C6_no_budget_zero_utilization (txs : List Tx) (budgets : List Budget)
    (userId y m : Int) :
    (∀ kv ∈ spentByCat (monthExpenseRows txs userId y m),
      kv.1 ∉ (budgets.filter fun b =>
          decide (b.userId = userId) && decide (b.month = (y, m))).map (fun b => b.category) →
      ({ month := (y, m), category := kv.1, budget := 0, spent := round2 kv.2,
         utilizationPct := 0, severity := "normal" } : OverspendingItem)
        ∈ overspending_alerts txs budgets userId y m) ∧
    ∀ s b : ℚ, utilizationChecked s b = some (utilization s b) := by
  constructor
  · intro kv hkv hnc
    simp only [overspending_alerts]
    refine (sortBy_perm itemLe _).mem_iff.mpr ?_
    refine List.mem_append.mpr (Or.inr ?_)
    refine List.mem_map.mpr ⟨kv, ?_, rfl⟩
    refine List.mem_filter.mpr ⟨hkv, ?_⟩
    simp [hnc]
  · intro s b
    unfold utilizationChecked checkedDiv utilization
    by_cases hb : 0 < b
    · rw [if_pos hb, if_pos hb, if_neg (ne_of_gt hb)]
      rfl
    · rw [if_neg hb, if_neg hb]

/-- C6 witness: an expense category with no budget at all. -/
theorem C6_no_budget_witness :
    ({ month := (1, 1), category := "Food", budget := 0, spent := round2 (99996/100),
       utilizationPct := 0, severity := "normal" } : OverspendingItem)
      ∈ overspending_alerts
        [{ id := 1, userId := 1, date := 5, amount := 99996/100,
           category := "Food", type := "expense" }] [] 1 1 1 ∧
    utilizationChecked 5 0 = some (utilization 5 0) := by
  constructor
  · refine (C6_no_budget_zero_utilization _ [] 1 1 1).1 ("Food", 99996/100) ?_ (by simp)
    rw [sbcEval]
    exact List.mem_singleton_self _
  · exact (C6_no_budget_zero_utilization [] [] 1 1 1).2 5 0

/-- C2: the claim as stated is false: the swap also applies when only `start` is
given, so a future `start` makes the returned end the given start, not today. -/
theorem C2_counterexample :
    ¬ ∀ (today sv : Int), (compute_date_range today none (some sv) none).2.end_ = today := by
  intro h
  exact absurd (h 100 101) (by decide)

/-- C2 (amended): full characterization of `compute_date_range`: it always
succeeds with `start ≤ end`; defaults are as claimed except that the
start-greater-than-end swap applies in every case, including when only `start`
is given (end defaults to today, then the pair is swapped if `start > today`);
the effective period echoes a recognized `period` and is otherwise inferred as
"day" iff the span is at most 31 days. -/
theorem C2_date_range_normalization (today : Int) (period : Option String)
    (s e : Option Int) :
    (compute_date_range today period s e).2.start
        ≤ (compute_date_range today period s e).2.end_ ∧
    (s = none → e = none → (compute_date_range today period s e).2 = ⟨today - 29, today⟩) ∧
    (∀ ev, s = none → e = some ev → (compute_date_range today period s e).2 = ⟨ev - 29, ev⟩) ∧
    (∀ sv, s = some sv → e = none →
      (compute_date_range today period s e).2 =
        if today < sv then ⟨today, sv⟩ else ⟨sv, today⟩) ∧
    (∀ sv ev, s = some sv → e = some ev →
      (compute_date_range today period s e).2 =
        if ev < sv then ⟨ev, sv⟩ else ⟨sv, ev⟩) ∧
    ((period ≠ some "day" ∧ period ≠ some "week" ∧ period ≠ some "month") →
      (compute_date_range today period s e).1 =
        (if (compute_date_range today period s e).2.end_
            - (compute_date_range today period s e).2.start ≤ 31
          then "day" else "month")) ∧
    (period = some "day" ∨ period = some "week" ∨ period = some "month" →
      some (compute_date_range today period s e).1 = period) := by
  refine ⟨?_, ?_, ?_, ?_, ?_, ?_, ?_⟩
  · rcases s with _ | sv <;> rcases e with _ | ev <;>
      simp only [compute_date_range, resolveRange] <;> split_ifs <;> omega
  · rintro rfl rfl
    simp only [compute_date_range, resolveRange]
    split_ifs <;> first | rfl | (exfalso; omega)
  · rintro ev rfl rfl
    simp only [compute_date_range, resolveRange]
    split_ifs <;> first | rfl | (exfalso; omega)
  · rintro sv rfl rfl
    simp only [compute_date_range, resolveRange]
    split_ifs <;> first | rfl | (exfalso; omega)
  · rintro sv ev rfl rfl
    simp only [compute_date_range, resolveRange]
    split_ifs <;> first | rfl | (exfalso; omega)
  · intro hne
    rcases period with _ | pv
    · simp only [compute_date_range]
    · simp only [compute_date_range]
      rw [if_neg (fun hor => hor.elim (fun h => hne.1 (congrArg some h))
        (fun hor2 => hor2.elim (fun h => hne.2.1 (congrArg some h))
          (fun h => hne.2.2 (congrArg some h))))]
  · intro hp
    rcases hp with h | h | h <;> rw [h] <;> simp [compute_date_range]

/-- C2 witness: the amended statement applied to a future start date. -/
theorem C2_date_range_witness :
    (compute_date_range 100 none (some 101) none).2 =
      if (100 : Int) < 101 then ⟨100, 101⟩ else ⟨101, 100⟩ :=
  (C2_date_range_normalization 100 none (some 101) none).2.2.2.1 101 rfl rfl

theorem txLe_total : ∀ a b : Tx, txLe a b = true ∨ txLe b a = true := by
  intro a b
  simp only [txLe, Bool.or_eq_true, Bool.and_eq_true, decide_eq_true_eq]
  omega

theorem txLe_trans : ∀ a b c : Tx, txLe a b = true → txLe b c = true → txLe a c = true := by
  intro a b c
  simp only [txLe, Bool.or_eq_true, Bool.and_eq_true, decide_eq_true_eq]
  omega

theorem pairwise_getLast {α : Type} (R : α → α → Prop) :
    ∀ (l : List α) (hne : l ≠ []), l.Pairwise R → ∀ x ∈ l,
      x = l.getLast hne ∨ R x (l.getLast hne) := by
  intro l
  induction l with
  | nil => intro hne; exact absurd rfl hne
  | cons a l' ih =>
    intro hne hp x hx
    rcases List.pairwise_cons.mp hp with ⟨ha, hl'⟩
    cases l' with
    | nil =>
      rcases List.mem_singleton.mp hx with rfl
      exact Or.inl rfl
    | cons b l'' =>
      rw [List.getLast_cons (List.cons_ne_nil b l'')]
      rcases List.mem_cons.mp hx with rfl | hx'
      · exact Or.inr (ha _ (List.getLast_mem (List.cons_ne_nil b l'')))
      · exact ih (List.cons_ne_nil b l'') hl' x hx'

/-- C3: the claim as stated is false: the divisor of `avg_daily_spend` is the
span of the observed transactions, not the 30-day window.  With one expense of
30 on the last day of the window, the reported average is 30, not 30/30. -/
theorem C3_counterexample :
    (compute_goals_plan 100
      [{ id := 1, userId := 1, date := 100, amount := -30, category := "Food",
         type := "expense" }] [] 1).baselineAvgDailySpend ≠ round2 ((30 : ℚ) / 30) := by
  have h1 : round2 ((30 : ℚ) / 30) = 1 := by
    rw [show ((30 : ℚ) / 30) = 1 from by norm_num]
    apply round2_centi
    unfold isCenti
    norm_num
  have h30 : round2 (30 : ℚ) = 30 := by
    apply round2_centi
    unfold isCenti
    norm_num
  have heval : (compute_goals_plan 100
      [{ id := 1, userId := 1, date := 100, amount := -30, category := "Food",
         type := "expense" }] [] 1).baselineAvgDailySpend = 30 := by
    have hexp : (strLower "expense" == "income") = false := by decide
    have hneg : (decide ((0 : ℚ) < -30)) = false := decide_eq_false (by norm_num)
    simp only [compute_goals_plan, lastThirtyRange, fetch_transactions, sortBy, insertSorted,
      aggregate_spending_patterns, totalIncome, totalExpenses, catSpend, accumAssoc,
      isIncome, hexp, hneg, List.filter, List.foldr, List.getLast]
    norm_num [h30]
  rw [heval, h1]
  norm_num

/-- C3 (amended): the baseline `avg_daily_spend` divides the total absolute
expenses of the fetched 30-day-window transactions by the span in days from the
earliest to the latest fetched transaction (inclusive), not by the window
length; it is 0 when the window holds no transactions. -/
theorem C3_avg_daily_spend_uses_transaction_span (today : Int) (txs : List Tx)
    (goals : List Goal) (userId : Int) :
    (fetch_transactions txs userId (lastThirtyRange today) = [] →
      (compute_goals_plan today txs goals userId).baselineAvgDailySpend = 0) ∧
    ∀ t0 rest, fetch_transactions txs userId (lastThirtyRange today) = t0 :: rest →
      ∃ dmin dmax : Int,
        (∀ t ∈ fetch_transactions txs userId (lastThirtyRange today),
          dmin ≤ t.date ∧ t.date ≤ dmax) ∧
        (∃ t ∈ fetch_transactions txs userId (lastThirtyRange today), t.date = dmin) ∧
        (∃ t ∈ fetch_transactions txs userId (lastThirtyRange today), t.date = dmax) ∧
        (compute_goals_plan today txs goals userId).baselineAvgDailySpend =
          round2 (totalExpenses (fetch_transactions txs userId (lastThirtyRange today))
            / (dmax - dmin + 1)) := by
  constructor
  · intro h
    simp only [compute_goals_plan]
    rw [h]
    simp only [aggregate_spending_patterns]
    exact round2_zero
  · intro t0 rest heq
    have hsorted : (fetch_transactions txs userId (lastThirtyRange today)).Pairwise
        (fun a b => txLe a b = true) := by
      unfold fetch_transactions
      exact sortBy_sorted txLe txLe_total txLe_trans _
    rw [heq] at hsorted
    refine ⟨t0.date, ((t0 :: rest).getLast (List.cons_ne_nil t0 rest)).date, ?_, ?_, ?_, ?_⟩
    · intro t ht
      rw [heq] at ht
      constructor
      · rcases List.mem_cons.mp ht with rfl | ht'
        · omega
        · have := (List.pairwise_cons.mp hsorted).1 t ht'
          simp only [txLe, Bool.or_eq_true, Bool.and_eq_true, decide_eq_true_eq] at this
          omega
      · rcases pairwise_getLast _ (t0 :: rest) (List.cons_ne_nil t0 rest) hsorted t ht with rfl | hR
        · omega
        · simp only [txLe, Bool.or_eq_true, Bool.and_eq_true, decide_eq_true_eq] at hR
          omega
    · exact ⟨t0, by rw [heq]; exact List.mem_cons_self t0 rest, rfl⟩
    · exact ⟨(t0 :: rest).getLast (List.cons_ne_nil t0 rest), by rw [heq]; exact List.getLast_mem (List.cons_ne_nil t0 rest), rfl⟩
    · have hlast : t0.date ≤ ((t0 :: rest).getLast (List.cons_ne_nil t0 rest)).date := by
        rcases pairwise_getLast _ (t0 :: rest) (List.cons_ne_nil t0 rest) hsorted t0 (List.mem_cons_self t0 rest)
          with he | hR
        · rw [← he]
        · simp only [txLe, Bool.or_eq_true, Bool.and_eq_true, decide_eq_true_eq] at hR
          omega
      simp only [compute_goals_plan]
      rw [heq]
      simp only [aggregate_spending_patterns]
      rw [if_neg (by omega)]
      congr 1
      push_cast
      ring

/-- C3 witness: a single transaction on the window's last day gives span 1. -/
theorem C3_span_witness :
    (compute_goals_plan 100
      [{ id := 1, userId := 1, date := 100, amount := -30, category := "Food",
         type := "expense" }] [] 1).baselineAvgDailySpend =
      round2 (totalExpenses (fetch_transactions
        [{ id := 1, userId := 1, date := 100, amount := -30, category := "Food",
           type := "expense" }] 1 (lastThirtyRange 100)) / (100 - 100 + 1)) := by
  have hfetch : fetch_transactions
      [{ id := 1, userId := 1, date := 100, amount := -30, category := "Food",
         type := "expense" }] 1 (lastThirtyRange 100) =
      [{ id := 1, userId := 1, date := 100, amount := -30, category := "Food",
         type := "expense" }] := by
    simp [fetch_transactions, lastThirtyRange, sortBy, insertSorted, List.filter]
  have h := ((C3_avg_daily_spend_uses_transaction_span 100
    [{ id := 1, userId := 1, date := 100, amount := -30, category := "Food",
       type := "expense" }] [] 1).2
    { id := 1, userId := 1, date := 100, amount := -30, category := "Food",
      type := "expense" } [] hfetch)
  obtain ⟨dmin, dmax, hb, ⟨t1, ht1, hd1⟩, ⟨t2, ht2, hd2⟩, hval⟩ := h
  rw [hfetch] at ht1 ht2
  rcases List.mem_singleton.mp ht1 with rfl
  rcases List.mem_singleton.mp ht2 with rfl
  rw [hval, ← hd1, ← hd2]
  norm_num

theorem amtDesc_total {κ : Type} : ∀ a b : κ × ℚ, amtDesc a b = true ∨ amtDesc b a = true := by
  intro a b
  simp only [amtDesc, decide_eq_true_eq]
  exact le_total b.2 a.2

theorem amtDesc_trans {κ : Type} : ∀ a b c : κ × ℚ,
    amtDesc a b = true → amtDesc b c = true → amtDesc a c = true := by
  intro a b c
  simp only [amtDesc, decide_eq_true_eq]
  intro h1 h2
  linarith

/-- C7: the savings advice emits `min 5 (number of spending categories)`
reductions, taken from the per-category spends ranked descending, with the fixed
percentage table `[10, 7, 5, 3, 3]` assigned by rank and each `reduced_amount`
equal to `round(current_spend * pct / 100, 2)`. -/
theorem C7_category_reductions (today : Int) (txs : List Tx) (userId : Int)
    (period : Option String) :
    ∃ top : List (String × ℚ),
      top.Perm (aggregate_spending_patterns
        (fetch_transactions txs userId (lastThirtyRange today))).2.1 ∧
      top.Pairwise (fun a b => b.2 ≤ a.2) ∧
      (compute_savings_advice today txs userId period).categoryReductions =
        ((top.take 5).zip pcts).map (fun x =>
          { category := x.1.1, current := round2 x.1.2, suggestedReductionPct := x.2,
            reducedAmount := round2 (x.1.2 * (x.2 / 100)) }) ∧
      (compute_savings_advice today txs userId period).categoryReductions.length =
        min 5 (aggregate_spending_patterns
          (fetch_transactions txs userId (lastThirtyRange today))).2.1.length := by
  refine ⟨sortBy amtDesc (aggregate_spending_patterns
    (fetch_transactions txs userId (lastThirtyRange today))).2.1, sortBy_perm _ _, ?_, rfl, ?_⟩
  · have h := sortBy_sorted amtDesc amtDesc_total amtDesc_trans
      (aggregate_spending_patterns (fetch_transactions txs userId (lastThirtyRange today))).2.1
    refine h.imp ?_
    intro a b hab
    simpa [amtDesc] using hab
  · simp only [compute_savings_advice]
    rw [List.length_map, List.length_zip, List.length_take]
    rw [(sortBy_perm amtDesc _).length_eq]
    simp only [pcts, List.length_cons, List.length_nil]
    omega

/-- C8: when the baseline monthly net is at most epsilon, every goal of the user
is reported with status "no_net" and absent months_to_target and
projected_completion; the case is an ordinary result value of the total
computation, not an error. -/
theorem C8_no_net_status (today : Int) (txs : List Tx) (goals : List Goal) (userId : Int)
    (hnet : (aggregate_spending_patterns
        (fetch_transactions txs userId (lastThirtyRange today))).1
      - ((aggregate_spending_patterns
          (fetch_transactions txs userId (lastThirtyRange today))).2.1.map
            (fun kv => kv.2)).sum ≤ epsilon) :
    ∀ it ∈ (compute_goals_plan today txs goals userId).goals,
      it.status = "no_net" ∧ it.monthsToTarget = none ∧ it.projectedCompletion = none := by
  intro it hit
  simp only [compute_goals_plan] at hit
  rcases List.mem_map.mp hit with ⟨g, hg, rfl⟩
  unfold goalItem
  rw [if_pos hnet]
  exact ⟨rfl, rfl, rfl⟩

/-- Concrete goal row for the C8 scenario. -/
def goalCar : Goal :=
  { id := 7, userId := 1, name := "Car", targetAmount := 1200, currentAmount := 0,
    targetDate := none }

/-- C8 witness: empty window and one goal gives monthly net 0 and "no_net". -/
theorem C8_no_net_witness :
    (goalItem 100 ((aggregate_spending_patterns (fetch_transactions [] 1
          (lastThirtyRange 100))).1 -
        ((aggregate_spending_patterns (fetch_transactions [] 1 (lastThirtyRange 100))).2.1.map
          (fun kv => kv.2)).sum) goalCar).status = "no_net" ∧
    (goalItem 100 ((aggregate_spending_patterns (fetch_transactions [] 1
          (lastThirtyRange 100))).1 -
        ((aggregate_spending_patterns (fetch_transactions [] 1 (lastThirtyRange 100))).2.1.map
          (fun kv => kv.2)).sum) goalCar).monthsToTarget = none ∧
    (goalItem 100 ((aggregate_spending_patterns (fetch_transactions [] 1
          (lastThirtyRange 100))).1 -
        ((aggregate_spending_patterns (fetch_transactions [] 1 (lastThirtyRange 100))).2.1.map
          (fun kv => kv.2)).sum) goalCar).projectedCompletion = none := by
  refine C8_no_net_status 100 [] [goalCar] 1 ?_ _ ?_
  · simp [fetch_transactions, sortBy, aggregate_spending_patterns, epsilon, List.filter]
  · simp [compute_goals_plan, List.filter, goalCar]

/-- C10: in budget utilization, `spent` for a category is the absolute value of
the signed sum of amounts over this user's rows with `type` exactly "expense"
and date in `[first-of-month, first-of-next-month)` — cancellation happens
before the absolute value — and a positive-amount "expense" row counted here is
classified as income by the summary/behaviors rule. -/
theorem C10_spent_abs_of_signed_sum (txs : List Tx) (userId y m : Int) :
    (∀ kv ∈ spentByCat (monthExpenseRows txs userId y m),
      kv.2 = |((txs.filter fun t =>
          (decide (t.userId = userId) && (t.type == "expense") &&
            decide (ymd2ord y m 1 ≤ t.date) &&
            decide (t.date < ymd2ord (nextMonthYM y m).1 (nextMonthYM y m).2 1)) &&
          (t.category == kv.1)).map fun t => t.amount).sum|) ∧
    (∀ t : Tx, t.type = "expense" → 0 < t.amount → isIncome t = true) := by
  constructor
  · intro kv hkv
    unfold spentByCat at hkv
    rcases List.mem_map.mp hkv with ⟨c, hc, rfl⟩
    show _ = |((txs.filter _).map fun t => t.amount).sum|
    rw [show (txs.filter fun t =>
        (decide (t.userId = userId) && (t.type == "expense") &&
          decide (ymd2ord y m 1 ≤ t.date) &&
          decide (t.date < ymd2ord (nextMonthYM y m).1 (nextMonthYM y m).2 1)) &&
        (t.category == c))
      = (monthExpenseRows txs userId y m).filter (fun t => t.category == c) from by
        unfold monthExpenseRows
        rw [List.filter_filter]
        exact List.filter_congr fun a _ => Bool.and_comm _ _]
  · intro t htype hamt
    unfold isIncome
    rw [decide_eq_true hamt, Bool.or_true]

/-- Concrete rows for the C10 scenario: a positive and a negative "expense". -/
def txPos : Tx :=
  { id := 1, userId := 1, date := 5, amount := 50, category := "Food", type := "expense" }

def txNeg : Tx :=
  { id := 2, userId := 1, date := 6, amount := -30, category := "Food", type := "expense" }

/-- C10 witness: +50 and -30 in one category cancel to spent = 20 (not 80), and
the +50 "expense" row is income under the summary classification. -/
theorem C10_witness :
    (("Food", (20 : ℚ)) : String × ℚ).2 = |(([txPos, txNeg].filter fun t =>
        (decide (t.userId = 1) && (t.type == "expense") && decide (ymd2ord 1 1 1 ≤ t.date) &&
          decide (t.date < ymd2ord (nextMonthYM 1 1).1 (nextMonthYM 1 1).2 1)) &&
        (t.category == ("Food", (20 : ℚ)).1)).map fun t => t.amount).sum| ∧
    isIncome txPos = true := by
  have hsbc : spentByCat (monthExpenseRows [txPos, txNeg] 1 1 1) = [("Food", 20)] := by
    simp [txPos, txNeg, spentByCat, monthExpenseRows, categoriesOf, nextMonthYM, ymd2ord,
      daysBeforeYear, daysBeforeMonth, daysBeforeMonthTable, isLeap, List.filter]
    norm_num
  constructor
  · exact (C10_spent_abs_of_signed_sum [txPos, txNeg] 1 1 1).1 ("Food", 20)
      (by rw [hsbc]; exact List.mem_singleton_self _)
  · exact (C10_spent_abs_of_signed_sum [txPos, txNeg] 1 1 1).2 txPos rfl (by norm_num [txPos])

/-! ### Lemmas for the behaviors computation (C9) -/

theorem maxBySnd_foldl_some {κ : Type} :
    ∀ (l : List (κ × ℚ)) (m0 : κ × ℚ), ∃ m, (l.foldl (fun acc x =>
      match acc with
      | none => some x
      | some m => if m.2 < x.2 then some x else some m) (some m0)) = some m := by
  intro l
  induction l with
  | nil => exact fun m0 => ⟨m0, rfl⟩
  | cons a l ih =>
    intro m0
    by_cases h : m0.2 < a.2
    · simpa [List.foldl_cons, h] using ih a
    · simpa [List.foldl_cons, h] using ih m0

theorem maxBySnd_none_iff {κ : Type} (l : List (κ × ℚ)) : maxBySnd l = none ↔ l = [] := by
  cases l with
  | nil => simp [maxBySnd]
  | cons a l =>
    simp only [maxBySnd, List.foldl_cons]
    obtain ⟨m, hm⟩ := maxBySnd_foldl_some l a
    constructor
    · intro h
      rw [hm] at h
      cases h
    · intro h
      cases h

theorem maxBySnd_first_aux {κ : Type} :
    ∀ (l : List (κ × ℚ)) (m0 m : κ × ℚ), (l.foldl (fun acc x =>
      match acc with
      | none => some x
      | some mm => if mm.2 < x.2 then some x else some mm) (some m0)) = some m →
    ∃ l1 l2, m0 :: l = l1 ++ m :: l2 ∧ (∀ x ∈ l1, x.2 < m.2) ∧ (∀ x ∈ l2, x.2 ≤ m.2) := by
  intro l
  induction l with
  | nil =>
    intro m0 m h
    cases h
    exact ⟨[], [], rfl, by simp, by simp⟩
  | cons a l ih =>
    intro m0 m h
    simp only [List.foldl_cons] at h
    by_cases hlt : m0.2 < a.2
    · rw [if_pos hlt] at h
      obtain ⟨l1, l2, heq, hpre, hsuf⟩ := ih a m h
      cases l1 with
      | nil =>
        simp only [List.nil_append] at heq
        have ha := (List.cons_eq_cons.mp heq).1
        have hl := (List.cons_eq_cons.mp heq).2
        refine ⟨[m0], l2, by rw [ha, hl]; rfl, ?_, hsuf⟩
        intro x hx
        rcases List.mem_singleton.mp hx with rfl
        rw [← ha]
        exact hlt
      | cons b l1' =>
        rw [List.cons_append] at heq
        have hb := (List.cons_eq_cons.mp heq).1
        have hl := (List.cons_eq_cons.mp heq).2
        refine ⟨m0 :: b :: l1', l2, by simp only [List.cons_append]; rw [hb, hl], ?_, hsuf⟩
        intro x hx
        rcases List.mem_cons.mp hx with rfl | hx'
        · exact lt_trans (hb ▸ hlt) (hpre b (List.mem_cons_self b l1'))
        · exact hpre x hx'
    · rw [if_neg hlt] at h
      obtain ⟨l1, l2, heq, hpre, hsuf⟩ := ih m0 m h
      cases l1 with
      | nil =>
        simp only [List.nil_append] at heq
        have h0 := (List.cons_eq_cons.mp heq).1
        have hl := (List.cons_eq_cons.mp heq).2
        refine ⟨[], a :: l2, by simp only [List.nil_append]; rw [← h0, hl], by simp, ?_⟩
        intro x hx
        rcases List.mem_cons.mp hx with rfl | hx'
        · rw [← h0]
          exact le_of_not_lt hlt
        · exact hsuf x hx'
      | cons b l1' =>
        rw [List.cons_append] at heq
        have h0 := (List.cons_eq_cons.mp heq).1
        have hl := (List.cons_eq_cons.mp heq).2
        refine ⟨b :: a :: l1', l2, by simp only [List.cons_append]; rw [← h0, hl], ?_, hsuf⟩
        intro x hx
        rcases List.mem_cons.mp hx with h1 | hx'
        · rw [h1]
          exact hpre b (List.mem_cons_self b l1')
        · rcases List.mem_cons.mp hx' with h2 | hx''
          · rw [h2]
            exact lt_of_le_of_lt (h0 ▸ le_of_not_lt hlt) (hpre b (List.mem_cons_self b l1'))
          · exact hpre x (List.mem_cons.mpr (Or.inr hx''))

/-- Python `max` returns the first maximal element: the list splits around the
result with strictly smaller values before and no larger values after. -/
theorem maxBySnd_first_max {κ : Type} (l : List (κ × ℚ)) (m : κ × ℚ)
    (h : maxBySnd l = some m) :
    ∃ l1 l2, l = l1 ++ m :: l2 ∧ (∀ x ∈ l1, x.2 < m.2) ∧ (∀ x ∈ l2, x.2 ≤ m.2) := by
  cases l with
  | nil => cases h
  | cons a l =>
    simp only [maxBySnd, List.foldl_cons] at h
    exact maxBySnd_first_aux l a m h

/-- Total absolute expense recorded for a single day (the value `day_spend[d]`
accumulates over the loop of `compute_behaviors`). -/
def dayExpenseSum (txs : List Tx) (d : Int) : ℚ :=
  ((txs.filter fun t => !isIncome t && decide (t.date = d)).map fun t => |t.amount|).sum

theorem daySpend_fold_get :
    ∀ (txs : List Tx) (acc : List (Int × ℚ)) (k : Int),
      assocGet (txs.foldl (fun acc t =>
        if isIncome t then acc else accumAssoc acc t.date |t.amount|) acc) k
      = assocGet acc k + dayExpenseSum txs k := by
  intro txs
  induction txs with
  | nil =>
    intro acc k
    simp [dayExpenseSum]
  | cons t rest ih =>
    intro acc k
    simp only [List.foldl_cons]
    by_cases hinc : isIncome t = true
    · rw [if_pos hinc, ih acc k]
      have hfil : dayExpenseSum (t :: rest) k = dayExpenseSum rest k := by
        unfold dayExpenseSum
        rw [List.filter_cons, if_neg (by simp [hinc])]
      rw [hfil]
    · rw [if_neg hinc, ih (accumAssoc acc t.date |t.amount|) k]
      have hfalse : isIncome t = false := by
        cases hb : isIncome t
        · rfl
        · exact absurd hb hinc
      by_cases hd : t.date = k
      · rw [hd, accumAssoc_get_same]
        have hfil : dayExpenseSum (t :: rest) k = |t.amount| + dayExpenseSum rest k := by
          unfold dayExpenseSum
          rw [List.filter_cons, if_pos (by simp [hfalse, hd])]
          simp
        rw [hfil]
        ring
      · rw [accumAssoc_get_other acc t.date k |t.amount| (fun h => hd h.symm)]
        have hfil : dayExpenseSum (t :: rest) k = dayExpenseSum rest k := by
          unfold dayExpenseSum
          rw [List.filter_cons, if_neg (by simp [hd])]
        rw [hfil]

theorem daySpend_get (txs : List Tx) (k : Int) :
    assocGet (daySpend txs) k = dayExpenseSum txs k := by
  unfold daySpend
  rw [daySpend_fold_get]
  simp [assocGet]

theorem daySpend_fold_mem :
    ∀ (txs : List Tx) (acc : List (Int × ℚ)) (k : Int),
      k ∈ (txs.foldl (fun acc t =>
        if isIncome t then acc else accumAssoc acc t.date |t.amount|) acc).map Prod.fst
      ↔ k ∈ acc.map Prod.fst ∨ ∃ t ∈ txs, isIncome t = false ∧ t.date = k := by
  intro txs
  induction txs with
  | nil =>
    intro acc k
    simp
  | cons t rest ih =>
    intro acc k
    simp only [List.foldl_cons]
    by_cases hinc : isIncome t = true
    · rw [if_pos hinc, ih acc k]
      constructor
      · rintro (h | ⟨u, hu, hp⟩)
        · exact Or.inl h
        · exact Or.inr ⟨u, List.mem_cons.mpr (Or.inr hu), hp⟩
      · rintro (h | ⟨u, hu, hp⟩)
        · exact Or.inl h
        · rcases List.mem_cons.mp hu with rfl | hu'
          · exact absurd hp.1 (by simp [hinc])
          · exact Or.inr ⟨u, hu', hp⟩
    · rw [if_neg hinc, ih (accumAssoc acc t.date |t.amount|) k, accumAssoc_keys]
      have hfalse : isIncome t = false := by
        cases hb : isIncome t
        · rfl
        · exact absurd hb hinc
      by_cases hm : t.date ∈ acc.map Prod.fst
      · rw [if_pos hm]
        constructor
        · rintro (h | ⟨u, hu, hp⟩)
          · exact Or.inl h
          · exact Or.inr ⟨u, List.mem_cons.mpr (Or.inr hu), hp⟩
        · rintro (h | ⟨u, hu, hp⟩)
          · exact Or.inl h
          · rcases List.mem_cons.mp hu with rfl | hu'
            · exact Or.inl (hp.2 ▸ hm)
            · exact Or.inr ⟨u, hu', hp⟩
      · rw [if_neg hm]
        constructor
        · rintro (h | ⟨u, hu, hp⟩)
          · rcases List.mem_append.mp h with h' | h'
            · exact Or.inl h'
            · exact Or.inr ⟨t, List.mem_cons_self t rest, hfalse,
                (List.mem_singleton.mp h').symm⟩
          · exact Or.inr ⟨u, List.mem_cons.mpr (Or.inr hu), hp⟩
        · rintro (h | ⟨u, hu, hp⟩)
          · exact Or.inl (List.mem_append.mpr (Or.inl h))
          · rcases List.mem_cons.mp hu with rfl | hu'
            · exact Or.inl (List.mem_append.mpr
                (Or.inr (List.mem_singleton.mpr hp.2.symm)))
            · exact Or.inr ⟨u, hu', hp⟩

theorem daySpend_mem_iff (txs : List Tx) (k : Int) :
    k ∈ (daySpend txs).map Prod.fst ↔ ∃ t ∈ txs, isIncome t = false ∧ t.date = k := by
  unfold daySpend
  rw [daySpend_fold_mem]
  simp

theorem daySpend_fold_keys_sorted :
    ∀ (txs : List Tx) (acc : List (Int × ℚ)),
      txs.Pairwise (fun a b => a.date ≤ b.date) →
      (acc.map Prod.fst).Pairwise (fun a b => a < b) →
      (∀ k ∈ acc.map Prod.fst, ∀ t ∈ txs, k ≤ t.date) →
      ((txs.foldl (fun acc t =>
        if isIncome t then acc else accumAssoc acc t.date |t.amount|) acc).map
          Prod.fst).Pairwise (fun a b => a < b) := by
  intro txs
  induction txs with
  | nil =>
    intro acc _ hacc _
    simpa using hacc
  | cons t rest ih =>
    intro acc hsort hacc hle
    rcases List.pairwise_cons.mp hsort with ⟨hthead, hrest⟩
    simp only [List.foldl_cons]
    by_cases hinc : isIncome t = true
    · rw [if_pos hinc]
      exact ih acc hrest hacc (fun k hk u hu => hle k hk u (List.mem_cons.mpr (Or.inr hu)))
    · rw [if_neg hinc]
      apply ih (accumAssoc acc t.date |t.amount|) hrest
      · rw [accumAssoc_keys]
        by_cases hm : t.date ∈ acc.map Prod.fst
        · rw [if_pos hm]
          exact hacc
        · rw [if_neg hm]
          refine List.pairwise_append.mpr ⟨hacc, List.pairwise_singleton _ _, ?_⟩
          intro a ha b hb
          rw [List.mem_singleton.mp hb]
          have h1 : a ≤ t.date := hle a ha t (List.mem_cons_self t rest)
          have h2 : a ≠ t.date := fun h => hm (h ▸ ha)
          omega
      · intro k hk u hu
        rw [accumAssoc_keys] at hk
        have hkd : k ∈ acc.map Prod.fst ∨ k = t.date := by
          by_cases hm : t.date ∈ acc.map Prod.fst
          · rw [if_pos hm] at hk
            exact Or.inl hk
          · rw [if_neg hm] at hk
            rcases List.mem_append.mp hk with h | h
            · exact Or.inl h
            · exact Or.inr (List.mem_singleton.mp h)
        rcases hkd with h | h
        · exact hle k h u (List.mem_cons.mpr (Or.inr hu))
        · rw [h]
          exact hthead u hu

theorem daySpend_keys_sorted (txs : List Tx)
    (hsort : txs.Pairwise (fun a b => a.date ≤ b.date)) :
    ((daySpend txs).map Prod.fst).Pairwise (fun a b => a < b) := by
  unfold daySpend
  exact daySpend_fold_keys_sorted txs [] hsort (by simp) (by simp)


/-- C9: in `compute_behaviors`, `most_expensive_day` is `none` exactly when no
fetched transaction is classified as an expense; otherwise it reports a day that
actually carries an expense transaction, with the rounded total absolute expense
of that day, the day's total is maximal among all days with expense
transactions, and on ties the earliest (smallest) such day is reported, because
the transactions are iterated in ascending date order and Python `max` keeps the
first maximal entry. -/
theorem C9_most_expensive_day (today : Int) (txs : List Tx) (userId : Int)
    (start? end? : Option Int) (ftxs : List Tx)
    (hf : ftxs = fetch_transactions txs userId (compute_date_range today none start? end?).2) :
    ((compute_behaviors today txs userId start? end?).mostExpensiveDay = none ↔
      ∀ t ∈ ftxs, isIncome t = true) ∧
    (∀ d v, (compute_behaviors today txs userId start? end?).mostExpensiveDay = some (d, v) →
      (∃ t ∈ ftxs, isIncome t = false ∧ t.date = d) ∧
      v = round2 (dayExpenseSum ftxs d) ∧
      ∀ k, (∃ t ∈ ftxs, isIncome t = false ∧ t.date = k) →
        dayExpenseSum ftxs k ≤ dayExpenseSum ftxs d ∧
        (dayExpenseSum ftxs k = dayExpenseSum ftxs d → d ≤ k)) := by
  have hmed : (compute_behaviors today txs userId start? end?).mostExpensiveDay
      = (maxBySnd (daySpend ftxs)).map (fun p => (p.1, round2 p.2)) := by
    rw [hf]
    rfl
  have hsorted : ftxs.Pairwise (fun a b => a.date ≤ b.date) := by
    rw [hf]
    unfold fetch_transactions
    refine List.Pairwise.imp ?_ (sortBy_sorted txLe txLe_total txLe_trans _)
    intro a b hab
    simp only [txLe, Bool.or_eq_true, Bool.and_eq_true, decide_eq_true_eq] at hab
    omega
  have hkeys : ((daySpend ftxs).map Prod.fst).Pairwise (fun a b => a < b) :=
    daySpend_keys_sorted ftxs hsorted
  have hnd : ((daySpend ftxs).map Prod.fst).Nodup :=
    List.Pairwise.imp (fun h => ne_of_lt h) hkeys
  constructor
  · rw [hmed]
    constructor
    · intro h
      have h0 : maxBySnd (daySpend ftxs) = none := by
        cases hmax : maxBySnd (daySpend ftxs) with
        | none => rfl
        | some p =>
          rw [hmax] at h
          exact absurd h (by simp)
      have h1 : daySpend ftxs = [] := (maxBySnd_none_iff _).mp h0
      intro t ht
      by_contra hni
      have hfalse : isIncome t = false := by
        cases hb : isIncome t
        · rfl
        · exact absurd hb hni
      have hmem : t.date ∈ (daySpend ftxs).map Prod.fst :=
        (daySpend_mem_iff ftxs t.date).mpr ⟨t, ht, hfalse, rfl⟩
      rw [h1] at hmem
      cases hmem
    · intro hall
      have h1 : daySpend ftxs = [] := by
        cases hdx : daySpend ftxs with
        | nil => rfl
        | cons p l =>
          exfalso
          have hp : p.1 ∈ (daySpend ftxs).map Prod.fst := by
            rw [hdx]
            exact List.mem_map.mpr ⟨p, List.mem_cons_self p l, rfl⟩
          obtain ⟨t, ht, hfalse, _⟩ := (daySpend_mem_iff ftxs p.1).mp hp
          rw [hall t ht] at hfalse
          cases hfalse
      rw [(maxBySnd_none_iff _).mpr h1]
      rfl
  · intro d v hdv
    rw [hmed] at hdv
    cases hmax : maxBySnd (daySpend ftxs) with
    | none =>
      rw [hmax] at hdv
      cases hdv
    | some m =>
      rw [hmax] at hdv
      have hinj : (m.1, round2 m.2) = (d, v) := Option.some.inj hdv
      have hd1 : m.1 = d := congrArg Prod.fst hinj
      have hv1 : round2 m.2 = v := congrArg Prod.snd hinj
      obtain ⟨l1, l2, hsplit, hpre, hsuf⟩ := maxBySnd_first_max (daySpend ftxs) m hmax
      have hmem : m ∈ daySpend ftxs := by
        rw [hsplit]
        exact List.mem_append.mpr (Or.inr (List.mem_cons_self m l2))
      have hget : assocGet (daySpend ftxs) m.1 = m.2 :=
        assocGet_of_mem (daySpend ftxs) m.1 m.2 (by rw [Prod.mk.eta]; exact hmem) hnd
      have hval : m.2 = dayExpenseSum ftxs d := by
        rw [← hd1, ← daySpend_get ftxs m.1]
        exact hget.symm
      refine ⟨?_, ?_, ?_⟩
      · have hdk : d ∈ (daySpend ftxs).map Prod.fst := by
          rw [← hd1]
          exact List.mem_map.mpr ⟨m, hmem, rfl⟩
        exact (daySpend_mem_iff ftxs d).mp hdk
      · rw [← hv1, hval]
      · intro k hk
        have hkmem : k ∈ (daySpend ftxs).map Prod.fst := (daySpend_mem_iff ftxs k).mpr hk
        obtain ⟨p, hp, hpk⟩ := List.mem_map.mp hkmem
        have hgetk : assocGet (daySpend ftxs) k = p.2 := by
          rw [← hpk]
          exact assocGet_of_mem _ p.1 p.2 (by rw [Prod.mk.eta]; exact hp) hnd
        have hvk : dayExpenseSum ftxs k = p.2 := by
          rw [← daySpend_get, hgetk]
        rw [hsplit] at hp
        rcases List.mem_append.mp hp with hp1 | hp2
        · have hlt := hpre p hp1
          constructor
          · rw [hvk, ← hval]
            exact le_of_lt hlt
          · intro htie
            exfalso
            rw [hvk, ← hval] at htie
            exact absurd htie (ne_of_lt hlt)
        · rcases List.mem_cons.mp hp2 with hpm | hp2'
          · constructor
            · rw [hvk, hpm, hval]
            · intro _
              rw [← hpk, hpm, hd1]
          · constructor
            · rw [hvk, ← hval]
              exact hsuf p hp2'
            · intro _
              have hks := hkeys
              rw [hsplit, List.map_append, List.map_cons] at hks
              have h2 := (List.pairwise_append.mp hks).2.1
              have h3 := (List.pairwise_cons.mp h2).1
              have h4 : m.1 < p.1 := h3 p.1 (List.mem_map.mpr ⟨p, hp2', rfl⟩)
              rw [hd1, hpk] at h4
              exact le_of_lt h4

/-- Concrete expense row for the C9 witness scenario. -/
def txC9 : Tx :=
  { id := 1, userId := 1, date := 5, amount := -30, category := "Food", type := "expense" }

theorem C9_witness :
    (compute_behaviors 30 [txC9] 1 none none).mostExpensiveDay = some (5, 30) ∧
    ((∃ t ∈ fetch_transactions [txC9] 1 (compute_date_range 30 none none none).2,
        isIncome t = false ∧ t.date = 5) ∧
      (30 : ℚ) = round2
        (dayExpenseSum (fetch_transactions [txC9] 1 (compute_date_range 30 none none none).2) 5) ∧
      ∀ k, (∃ t ∈ fetch_transactions [txC9] 1 (compute_date_range 30 none none none).2,
          isIncome t = false ∧ t.date = k) →
        dayExpenseSum (fetch_transactions [txC9] 1 (compute_date_range 30 none none none).2) k ≤
          dayExpenseSum (fetch_transactions [txC9] 1 (compute_date_range 30 none none none).2) 5 ∧
        (dayExpenseSum (fetch_transactions [txC9] 1 (compute_date_range 30 none none none).2) k =
            dayExpenseSum (fetch_transactions [txC9] 1 (compute_date_range 30 none none none).2) 5 →
          (5 : Int) ≤ k)) := by
  have hinc : isIncome txC9 = false := by
    show ((strLower "expense" == "income") || decide ((0 : ℚ) < -30)) = false
    rw [show (strLower "expense" == "income") = false from by decide,
      decide_eq_false (by norm_num : ¬((0 : ℚ) < -30))]
    rfl
  have hfetch : fetch_transactions [txC9] 1 (compute_date_range 30 none none none).2
      = [txC9] := rfl
  have hday : daySpend [txC9] = [((5 : Int), (30 : ℚ))] := by
    unfold daySpend
    simp only [List.foldl_cons, List.foldl_nil]
    rw [if_neg (by rw [hinc]; exact Bool.false_ne_true)]
    show accumAssoc [] (5 : Int) |(-30 : ℚ)| = [((5 : Int), (30 : ℚ))]
    norm_num [accumAssoc]
  have hsome : (compute_behaviors 30 [txC9] 1 none none).mostExpensiveDay = some (5, 30) := by
    have hb : (compute_behaviors 30 [txC9] 1 none none).mostExpensiveDay
        = (maxBySnd (daySpend (fetch_transactions [txC9] 1
            (compute_date_range 30 none none none).2))).map (fun p => (p.1, round2 p.2)) := rfl
    rw [hb, hfetch, hday]
    show some ((5 : Int), round2 30) = some (5, 30)
    rw [round2_centi 30 (by norm_num [isCenti])]
  exact ⟨hsome,
    (C9_most_expensive_day 30 [txC9] 1 none none
      (fetch_transactions [txC9] 1 (compute_date_range 30 none none none).2) rfl).2 5 30 hsome⟩

/-! ### Lemmas for the dense trend series (C4) -/

theorem buildTrendDay_periods :
    ∀ (n : Nat) (acc : BKey → ℚ × ℚ) (s e : Int), (e + 1 - s).toNat = n →
      (buildTrendDay acc s e).map (fun en => en.period)
        = (List.range n).map (fun i : Nat => bucket_key "day" (s + (i : Int))) := by
  intro n
  induction n with
  | zero =>
    intro acc s e h
    have hgt : ¬ s ≤ e := by omega
    unfold buildTrendDay
    rw [dif_neg hgt]
    simp
  | succ k ih =>
    intro acc s e h
    have hle : s ≤ e := by omega
    unfold buildTrendDay
    rw [dif_pos hle]
    simp only [List.map_cons]
    rw [ih acc (s + 1) e (by omega), List.range_succ_eq_map]
    simp only [List.map_cons, List.map_map]
    refine congrArg₂ List.cons ?_ ?_
    · show (mkEntry acc (bucket_key "day" s)).period = bucket_key "day" (s + ((0 : Nat) : Int))
      simp [mkEntry]
    · refine List.map_congr_left ?_
      intro i _
      show bucket_key "day" (s + 1 + (i : Int)) = bucket_key "day" (s + ((i.succ : Nat) : Int))
      congr 1
      push_cast
      ring

theorem buildTrendWeek_periods :
    ∀ (n : Nat) (acc : BKey → ℚ × ℚ) (s e : Int), ((e + 7 - s) / 7).toNat = n →
      (buildTrendWeek acc s e).map (fun en => en.period)
        = (List.range n).map (fun i : Nat => bucket_key "week" (s + 7 * (i : Int))) := by
  intro n
  induction n with
  | zero =>
    intro acc s e h
    have hgt : ¬ s ≤ e := by omega
    unfold buildTrendWeek
    rw [dif_neg hgt]
    simp
  | succ k ih =>
    intro acc s e h
    have hle : s ≤ e := by omega
    unfold buildTrendWeek
    rw [dif_pos hle]
    simp only [List.map_cons]
    rw [ih acc (s + 7) e (by omega), List.range_succ_eq_map]
    simp only [List.map_cons, List.map_map]
    refine congrArg₂ List.cons ?_ ?_
    · show (mkEntry acc (bucket_key "week" s)).period = bucket_key "week" (s + 7 * ((0 : Nat) : Int))
      simp [mkEntry]
    · refine List.map_congr_left ?_
      intro i _
      show bucket_key "week" (s + 7 + 7 * (i : Int))
          = bucket_key "week" (s + 7 * ((i.succ : Nat) : Int))
      congr 1
      push_cast
      ring

theorem buildTrendMonth_periods :
    ∀ (n : Nat) (acc : BKey → ℚ × ℚ) (j jl : Int), (jl + 1 - j).toNat = n →
      (buildTrendMonth acc (msOrd j) (msOrd jl)).map (fun en => en.period)
        = (List.range n).map (fun i : Nat => bucket_key "month" (msOrd (j + (i : Int)))) := by
  intro n
  induction n with
  | zero =>
    intro acc j jl h
    have hgt : ¬ msOrd j ≤ msOrd jl := fun hc =>
      absurd ((msOrd_mono_iff j jl).mp hc) (by omega)
    unfold buildTrendMonth
    rw [dif_neg hgt]
    simp
  | succ k ih =>
    intro acc j jl h
    have hle : msOrd j ≤ msOrd jl := (msOrd_mono_iff j jl).mpr (by omega)
    unfold buildTrendMonth
    rw [dif_pos hle]
    simp only [List.map_cons]
    rw [nextMonthStartOrd_eq, monthIdx_msOrd, ih acc (j + 1) jl (by omega),
      List.range_succ_eq_map]
    simp only [List.map_cons, List.map_map]
    refine congrArg₂ List.cons ?_ ?_
    · show (mkEntry acc (bucket_key "month" (msOrd j))).period
        = bucket_key "month" (msOrd (j + ((0 : Nat) : Int)))
      simp [mkEntry]
    · refine List.map_congr_left ?_
      intro i _
      show bucket_key "month" (msOrd (j + 1 + (i : Int)))
          = bucket_key "month" (msOrd (j + ((i.succ : Nat) : Int)))
      congr 2
      push_cast
      ring

/-- The dense series' bucket labels, for each of the three effective periods,
are exactly the canonical enumeration of the spanned buckets; in particular
they do not depend on the accumulated transaction sums at all. -/
theorem trend_periods (p : String) (acc : BKey → ℚ × ℚ) (s e : Int) :
    ((if p = "day" then buildTrendDay acc s e
      else if p = "week" then buildTrendWeek acc (s - (s + 6) % 7) e
      else buildTrendMonth acc (monthStartOrd s) (monthStartOrd e)).map (fun en => en.period))
    = (if p = "day" then
        (List.range (e + 1 - s).toNat).map (fun i : Nat => bucket_key "day" (s + (i : Int)))
      else if p = "week" then
        (List.range ((e + 7 - (s - (s + 6) % 7)) / 7).toNat).map
          (fun i : Nat => bucket_key "week" (s - (s + 6) % 7 + 7 * (i : Int)))
      else
        (List.range (monthIdx e + 1 - monthIdx s).toNat).map
          (fun i : Nat => bucket_key "month" (msOrd (monthIdx s + (i : Int))))) := by
  by_cases h1 : p = "day"
  · rw [if_pos h1, if_pos h1]
    exact buildTrendDay_periods _ acc s e rfl
  · rw [if_neg h1, if_neg h1]
    by_cases h2 : p = "week"
    · rw [if_pos h2, if_pos h2]
      exact buildTrendWeek_periods _ acc (s - (s + 6) % 7) e rfl
    · rw [if_neg h2, if_neg h2, monthStartOrd_eq s, monthStartOrd_eq e]
      exact buildTrendMonth_periods _ acc (monthIdx s) (monthIdx e) rfl

theorem compute_date_range_le (today : Int) (period : Option String) (s? e? : Option Int) :
    (compute_date_range today period s? e?).2.start ≤ (compute_date_range today period s? e?).2.end_ := by
  have h1 : (compute_date_range today period s? e?).2.start
      = (if (resolveRange today s? e?).2 < (resolveRange today s? e?).1
         then (resolveRange today s? e?).2 else (resolveRange today s? e?).1) := rfl
  have h2 : (compute_date_range today period s? e?).2.end_
      = (if (resolveRange today s? e?).2 < (resolveRange today s? e?).1
         then (resolveRange today s? e?).1 else (resolveRange today s? e?).2) := rfl
  rw [h1, h2]
  by_cases h : (resolveRange today s? e?).2 < (resolveRange today s? e?).1
  · rw [if_pos h, if_pos h]
    omega
  · rw [if_neg h, if_neg h]
    omega

/-- C4: the summary's trend series is dense. Its bucket labels are exactly the
canonical enumeration of the spanned buckets — one per calendar day from start
to end for "day", one per 7-day step from the Monday on/before start for
"week", one per calendar month from the month of start to the month of end for
"month" — so its length is the bucket count (with start <= end guaranteed by
the range normalizer), and the labels are independent of the transactions: the
same series of buckets appears even when no transaction falls in any of them. -/
theorem C4_dense_trend (today : Int) (txs : List Tx) (userId : Int)
    (period : Option String) (start? end? : Option Int)
    (p : String) (s e : Int)
    (hp : p = (compute_summary today txs userId period start? end?).period)
    (hs : s = (compute_summary today txs userId period start? end?).rangeStart)
    (he : e = (compute_summary today txs userId period start? end?).rangeEnd) :
    ((compute_summary today txs userId period start? end?).trend.map (fun en => en.period)
      = (if p = "day" then
          (List.range (e + 1 - s).toNat).map (fun i : Nat => bucket_key "day" (s + (i : Int)))
        else if p = "week" then
          (List.range ((e + 7 - (s - (s + 6) % 7)) / 7).toNat).map
            (fun i : Nat => bucket_key "week" (s - (s + 6) % 7 + 7 * (i : Int)))
        else
          (List.range (monthIdx e + 1 - monthIdx s).toNat).map
            (fun i : Nat => bucket_key "month" (msOrd (monthIdx s + (i : Int)))))) ∧
    s ≤ e ∧
    (compute_summary today txs userId period start? end?).trend.length
      = (if p = "day" then (e + 1 - s).toNat
         else if p = "week" then ((e + 7 - (s - (s + 6) % 7)) / 7).toNat
         else (monthIdx e + 1 - monthIdx s).toNat) ∧
    (compute_summary today txs userId period start? end?).trend.map (fun en => en.period)
      = (compute_summary today [] userId period start? end?).trend.map (fun en => en.period) := by
  have hp2 : (compute_date_range today period start? end?).1 = p := hp.symm
  have hs2 : (compute_date_range today period start? end?).2.start = s := hs.symm
  have he2 : (compute_date_range today period start? end?).2.end_ = e := he.symm
  have htr : ∀ (l : List Tx), (compute_summary today l userId period start? end?).trend
      = (if (compute_date_range today period start? end?).1 = "day" then
          buildTrendDay (trendAccum (compute_date_range today period start? end?).1
            (fetch_transactions l userId (compute_date_range today period start? end?).2))
            (compute_date_range today period start? end?).2.start
            (compute_date_range today period start? end?).2.end_
        else if (compute_date_range today period start? end?).1 = "week" then
          buildTrendWeek (trendAccum (compute_date_range today period start? end?).1
            (fetch_transactions l userId (compute_date_range today period start? end?).2))
            ((compute_date_range today period start? end?).2.start
              - ((compute_date_range today period start? end?).2.start + 6) % 7)
            (compute_date_range today period start? end?).2.end_
        else
          buildTrendMonth (trendAccum (compute_date_range today period start? end?).1
            (fetch_transactions l userId (compute_date_range today period start? end?).2))
            (monthStartOrd (compute_date_range today period start? end?).2.start)
            (monthStartOrd (compute_date_range today period start? end?).2.end_)) :=
    fun l => rfl
  have hkeys : ∀ (l : List Tx),
      (compute_summary today l userId period start? end?).trend.map (fun en => en.period)
      = (if p = "day" then
          (List.range (e + 1 - s).toNat).map (fun i : Nat => bucket_key "day" (s + (i : Int)))
        else if p = "week" then
          (List.range ((e + 7 - (s - (s + 6) % 7)) / 7).toNat).map
            (fun i : Nat => bucket_key "week" (s - (s + 6) % 7 + 7 * (i : Int)))
        else
          (List.range (monthIdx e + 1 - monthIdx s).toNat).map
            (fun i : Nat => bucket_key "month" (msOrd (monthIdx s + (i : Int))))) := by
    intro l
    rw [htr l, hp2, hs2, he2]
    exact trend_periods p _ s e
  refine ⟨hkeys txs, ?_, ?_, by rw [hkeys txs, hkeys []]⟩
  · rw [hs, he]
    exact compute_date_range_le today period start? end?
  · have hlen := congrArg List.length (hkeys txs)
    rw [List.length_map] at hlen
    rw [hlen, apply_ite List.length, apply_ite List.length]
    simp [List.length_map, List.length_range]

theorem C4_witness :
    ("day" : String) = (compute_summary 30 ([] : List Tx) 1 none none none).period ∧
    (1 : Int) = (compute_summary 30 ([] : List Tx) 1 none none none).rangeStart ∧
    (30 : Int) = (compute_summary 30 ([] : List Tx) 1 none none none).rangeEnd ∧
    (((compute_summary 30 ([] : List Tx) 1 none none none).trend.map (fun en => en.period)
      = (if ("day" : String) = "day" then
          (List.range ((30 : Int) + 1 - 1).toNat).map
            (fun i : Nat => bucket_key "day" (1 + (i : Int)))
        else if ("day" : String) = "week" then
          (List.range (((30 : Int) + 7 - (1 - (1 + 6) % 7)) / 7).toNat).map
            (fun i : Nat => bucket_key "week" (1 - (1 + 6) % 7 + 7 * (i : Int)))
        else
          (List.range (monthIdx 30 + 1 - monthIdx 1).toNat).map
            (fun i : Nat => bucket_key "month" (msOrd (monthIdx 1 + (i : Int)))))) ∧
      (1 : Int) ≤ 30 ∧
      (compute_summary 30 ([] : List Tx) 1 none none none).trend.length
        = (if ("day" : String) = "day" then ((30 : Int) + 1 - 1).toNat
           else if ("day" : String) = "week" then (((30 : Int) + 7 - (1 - (1 + 6) % 7)) / 7).toNat
           else (monthIdx 30 + 1 - monthIdx 1).toNat) ∧
      (compute_summary 30 ([] : List Tx) 1 none none none).trend.map (fun en => en.period)
        = (compute_summary 30 ([] : List Tx) 1 none none none).trend.map (fun en => en.period)) :=
  ⟨rfl, rfl, rfl, C4_dense_trend 30 [] 1 none none none "day" 1 30 rfl rfl rfl⟩

/-! ### Lemmas for trend/totals sum preservation (C5) -/

/-- Income accumulated into one trend bucket by the `compute_summary` loop. -/
def bucketIncome (p : String) (txs : List Tx) (k : BKey) : ℚ :=
  ((txs.filter fun t => isIncome t && decide (bucket_key p t.date = k)).map fun t => t.amount).sum

/-- Positive expense total accumulated into one trend bucket. -/
def bucketExpense (p : String) (txs : List Tx) (k : BKey) : ℚ :=
  ((txs.filter fun t => !isIncome t && decide (bucket_key p t.date = k)).map fun t => |t.amount|).sum

theorem trendAccum_fold_apply (p : String) (k : BKey) :
    ∀ (l : List Tx) (f : BKey → ℚ × ℚ),
      (l.foldl (fun acc t =>
        if isIncome t then
          fun k2 => if k2 = bucket_key p t.date then ((acc k2).1 + t.amount, (acc k2).2) else acc k2
        else
          fun k2 => if k2 = bucket_key p t.date then ((acc k2).1, (acc k2).2 + |t.amount|) else acc k2)
        f) k
      = ((f k).1 + bucketIncome p l k, (f k).2 + bucketExpense p l k) := by
  intro l
  induction l with
  | nil =>
    intro f
    simp [bucketIncome, bucketExpense]
  | cons t rest ih =>
    intro f
    simp only [List.foldl_cons]
    by_cases hi : isIncome t = true
    · rw [if_pos hi, ih]
      have hbe : bucketExpense p (t :: rest) k = bucketExpense p rest k := by
        unfold bucketExpense
        rw [List.filter_cons, if_neg (by simp [hi])]
      by_cases hk : k = bucket_key p t.date
      · have hbi : bucketIncome p (t :: rest) k = t.amount + bucketIncome p rest k := by
          unfold bucketIncome
          rw [List.filter_cons, if_pos (by simp [hi, hk])]
          simp
        rw [if_pos hk, hbi, hbe]
        show ((f k).1 + t.amount + bucketIncome p rest k, (f k).2 + bucketExpense p rest k)
            = ((f k).1 + (t.amount + bucketIncome p rest k), (f k).2 + bucketExpense p rest k)
        rw [add_assoc]
      · have hbi : bucketIncome p (t :: rest) k = bucketIncome p rest k := by
          unfold bucketIncome
          rw [List.filter_cons, if_neg (by
            simp only [Bool.and_eq_true, decide_eq_true_eq]
            rintro ⟨h1x, h2x⟩
            exact hk h2x.symm)]
        rw [if_neg hk, hbi, hbe]
    · rw [if_neg hi, ih]
      have hfalse : isIncome t = false := by
        cases hb : isIncome t
        · rfl
        · exact absurd hb hi
      have hbi : bucketIncome p (t :: rest) k = bucketIncome p rest k := by
        unfold bucketIncome
        rw [List.filter_cons, if_neg (by simp [hfalse])]
      by_cases hk : k = bucket_key p t.date
      · have hbe : bucketExpense p (t :: rest) k = |t.amount| + bucketExpense p rest k := by
          unfold bucketExpense
          rw [List.filter_cons, if_pos (by simp [hfalse, hk])]
          simp
        rw [if_pos hk, hbi, hbe]
        show ((f k).1 + bucketIncome p rest k, (f k).2 + |t.amount| + bucketExpense p rest k)
            = ((f k).1 + bucketIncome p rest k, (f k).2 + (|t.amount| + bucketExpense p rest k))
        rw [add_assoc]
      · have hbe : bucketExpense p (t :: rest) k = bucketExpense p rest k := by
          unfold bucketExpense
          rw [List.filter_cons, if_neg (by
            simp only [Bool.and_eq_true, decide_eq_true_eq]
            rintro ⟨h1x, h2x⟩
            exact hk h2x.symm)]
        rw [if_neg hk, hbi, hbe]

theorem trendAccum_apply (p : String) (txs : List Tx) (k : BKey) :
    trendAccum p txs k = (bucketIncome p txs k, bucketExpense p txs k) := by
  unfold trendAccum
  rw [trendAccum_fold_apply]
  simp

theorem sum_map_const_zero {β : Type} (K : List β) : (K.map (fun _ => (0 : ℚ))).sum = 0 := by
  induction K with
  | nil => simp
  | cons a K ih => simp [ih]

theorem sum_update {β : Type} [DecidableEq β] :
    ∀ (K : List β) (b : β) (c : ℚ) (S : β → ℚ), K.Nodup → b ∈ K →
      (K.map (fun k => if b = k then c + S k else S k)).sum = c + (K.map S).sum := by
  intro K
  induction K with
  | nil =>
    intro b c S _ hb
    cases hb
  | cons a K ih =>
    intro b c S hnd hb
    simp only [List.map_cons, List.sum_cons]
    rcases List.mem_cons.mp hb with hba | hbK
    · rw [if_pos hba]
      have hnotin : b ∉ K := by
        rw [hba]
        exact (List.nodup_cons.mp hnd).1
      have htail : K.map (fun k => if b = k then c + S k else S k) = K.map S := by
        refine List.map_congr_left ?_
        intro k hk
        rw [if_neg (fun h : b = k => hnotin (h.symm ▸ hk))]
      rw [htail]
      ring
    · have hba : b ≠ a := fun h => (List.nodup_cons.mp hnd).1 (h ▸ hbK)
      rw [if_neg hba, ih b c S (List.nodup_cons.mp hnd).2 hbK]
      ring

theorem sum_filter_partition (p : String) (q : Tx → Bool) (g : Tx → ℚ) :
    ∀ (txs : List Tx) (K : List BKey), K.Nodup →
      (∀ t ∈ txs, q t = true → bucket_key p t.date ∈ K) →
      (K.map (fun k =>
        ((txs.filter fun u => q u && decide (bucket_key p u.date = k)).map g).sum)).sum
      = ((txs.filter fun u => q u).map g).sum := by
  intro txs
  induction txs with
  | nil =>
    intro K _ _
    simp [sum_map_const_zero]
  | cons t rest ih =>
    intro K hnd hcov
    by_cases hq : q t = true
    · have hb : bucket_key p t.date ∈ K := hcov t (List.mem_cons_self t rest) hq
      have hstep : ∀ k ∈ K,
          (((t :: rest).filter fun u => q u && decide (bucket_key p u.date = k)).map g).sum
          = if bucket_key p t.date = k
            then g t + ((rest.filter fun u => q u && decide (bucket_key p u.date = k)).map g).sum
            else ((rest.filter fun u => q u && decide (bucket_key p u.date = k)).map g).sum := by
        intro k _
        rw [List.filter_cons]
        by_cases hk : bucket_key p t.date = k
        · rw [if_pos (by simp [hq, hk]), if_pos hk]
          simp
        · rw [if_neg (by simp [hk]), if_neg hk]
      rw [List.map_congr_left hstep,
        sum_update K (bucket_key p t.date) (g t) _ hnd hb,
        ih K hnd (fun u hu hqu => hcov u (List.mem_cons.mpr (Or.inr hu)) hqu),
        List.filter_cons, if_pos (by simp [hq])]
      simp
    · have hstep : ∀ k ∈ K,
          (((t :: rest).filter fun u => q u && decide (bucket_key p u.date = k)).map g).sum
          = ((rest.filter fun u => q u && decide (bucket_key p u.date = k)).map g).sum := by
        intro k _
        rw [List.filter_cons, if_neg (by simp [hq])]
      rw [List.map_congr_left hstep,
        ih K hnd (fun u hu hqu => hcov u (List.mem_cons.mpr (Or.inr hu)) hqu),
        List.filter_cons, if_neg (by simp [hq])]

theorem sums_over_labels (p : String) (ftxs : List Tx) (K : List BKey)
    (hnd : K.Nodup)
    (hcov : ∀ t ∈ ftxs, bucket_key p t.date ∈ K)
    (hc : ∀ t ∈ ftxs, isCenti t.amount) :
    ((K.map (mkEntry (trendAccum p ftxs))).map (fun en => en.income)).sum = totalIncome ftxs ∧
    ((K.map (mkEntry (trendAccum p ftxs))).map (fun en => en.expenses)).sum
      = totalExpenses ftxs := by
  constructor
  · have h1 : (K.map (mkEntry (trendAccum p ftxs))).map (fun en => en.income)
        = K.map (fun k => bucketIncome p ftxs k) := by
      rw [List.map_map]
      refine List.map_congr_left ?_
      intro k _
      show round2 (trendAccum p ftxs k).1 = bucketIncome p ftxs k
      rw [trendAccum_apply]
      refine round2_centi _ (isCenti_sum _ ?_)
      intro q hq
      obtain ⟨t, htf, rfl⟩ := List.mem_map.mp hq
      exact hc t (List.mem_of_mem_filter htf)
    rw [h1]
    exact sum_filter_partition p (fun t => isIncome t) (fun t => t.amount) ftxs K hnd
      (fun t ht _ => hcov t ht)
  · have h1 : (K.map (mkEntry (trendAccum p ftxs))).map (fun en => en.expenses)
        = K.map (fun k => bucketExpense p ftxs k) := by
      rw [List.map_map]
      refine List.map_congr_left ?_
      intro k _
      show round2 (trendAccum p ftxs k).2 = bucketExpense p ftxs k
      rw [trendAccum_apply]
      refine round2_centi _ (isCenti_sum _ ?_)
      intro q hq
      obtain ⟨t, htf, rfl⟩ := List.mem_map.mp hq
      exact isCenti_abs _ (hc t (List.mem_of_mem_filter htf))
    rw [h1]
    exact sum_filter_partition p (fun t => !isIncome t) (fun t => |t.amount|) ftxs K hnd
      (fun t ht _ => hcov t ht)

theorem buildTrendDay_entries :
    ∀ (n : Nat) (acc : BKey → ℚ × ℚ) (s e : Int), (e + 1 - s).toNat = n →
      buildTrendDay acc s e
        = ((List.range n).map (fun i : Nat => bucket_key "day" (s + (i : Int)))).map
            (mkEntry acc) := by
  intro n
  induction n with
  | zero =>
    intro acc s e h
    have hgt : ¬ s ≤ e := by omega
    unfold buildTrendDay
    rw [dif_neg hgt]
    simp
  | succ k ih =>
    intro acc s e h
    have hle : s ≤ e := by omega
    unfold buildTrendDay
    rw [dif_pos hle, ih acc (s + 1) e (by omega), List.range_succ_eq_map]
    simp only [List.map_cons, List.map_map]
    refine congrArg₂ List.cons ?_ ?_
    · have h0 : s + ((0 : Nat) : Int) = s := by norm_num
      rw [h0]
    · refine List.map_congr_left ?_
      intro i _
      show mkEntry acc (bucket_key "day" (s + 1 + (i : Int)))
          = mkEntry acc (bucket_key "day" (s + ((i.succ : Nat) : Int)))
      have harg : s + 1 + (i : Int) = s + ((i.succ : Nat) : Int) := by
        push_cast
        ring
      rw [harg]

theorem buildTrendWeek_entries :
    ∀ (n : Nat) (acc : BKey → ℚ × ℚ) (s e : Int), ((e + 7 - s) / 7).toNat = n →
      buildTrendWeek acc s e
        = ((List.range n).map (fun i : Nat => bucket_key "week" (s + 7 * (i : Int)))).map
            (mkEntry acc) := by
  intro n
  induction n with
  | zero =>
    intro acc s e h
    have hgt : ¬ s ≤ e := by omega
    unfold buildTrendWeek
    rw [dif_neg hgt]
    simp
  | succ k ih =>
    intro acc s e h
    have hle : s ≤ e := by omega
    unfold buildTrendWeek
    rw [dif_pos hle, ih acc (s + 7) e (by omega), List.range_succ_eq_map]
    simp only [List.map_cons, List.map_map]
    refine congrArg₂ List.cons ?_ ?_
    · have h0 : s + 7 * ((0 : Nat) : Int) = s := by norm_num
      rw [h0]
    · refine List.map_congr_left ?_
      intro i _
      show mkEntry acc (bucket_key "week" (s + 7 + 7 * (i : Int)))
          = mkEntry acc (bucket_key "week" (s + 7 * ((i.succ : Nat) : Int)))
      have harg : s + 7 + 7 * (i : Int) = s + 7 * ((i.succ : Nat) : Int) := by
        push_cast
        ring
      rw [harg]

theorem buildTrendMonth_entries :
    ∀ (n : Nat) (acc : BKey → ℚ × ℚ) (j jl : Int), (jl + 1 - j).toNat = n →
      buildTrendMonth acc (msOrd j) (msOrd jl)
        = ((List.range n).map (fun i : Nat => bucket_key "month" (msOrd (j + (i : Int))))).map
            (mkEntry acc) := by
  intro n
  induction n with
  | zero =>
    intro acc j jl h
    have hgt : ¬ msOrd j ≤ msOrd jl := fun hc =>
      absurd ((msOrd_mono_iff j jl).mp hc) (by omega)
    unfold buildTrendMonth
    rw [dif_neg hgt]
    simp
  | succ k ih =>
    intro acc j jl h
    have hle : msOrd j ≤ msOrd jl := (msOrd_mono_iff j jl).mpr (by omega)
    unfold buildTrendMonth
    rw [dif_pos hle, nextMonthStartOrd_eq, monthIdx_msOrd, ih acc (j + 1) jl (by omega),
      List.range_succ_eq_map]
    simp only [List.map_cons, List.map_map]
    refine congrArg₂ List.cons ?_ ?_
    · have h0 : j + ((0 : Nat) : Int) = j := by norm_num
      rw [h0]
    · refine List.map_congr_left ?_
      intro i _
      show mkEntry acc (bucket_key "month" (msOrd (j + 1 + (i : Int))))
          = mkEntry acc (bucket_key "month" (msOrd (j + ((i.succ : Nat) : Int))))
      have harg : j + 1 + (i : Int) = j + ((i.succ : Nat) : Int) := by
        push_cast
        ring
      rw [harg]

theorem dayKeys_nodup (s : Int) (n : Nat) :
    ((List.range n).map (fun i : Nat => bucket_key "day" (s + (i : Int)))).Nodup := by
  have hinj : Function.Injective (fun i : Nat => bucket_key "day" (s + (i : Int))) := by
    intro i j hij
    simp [bucket_key] at hij
    omega
  exact List.Nodup.map hinj (List.nodup_range n)

theorem weekKeys_nodup (m0 : Int) (hm0 : m0 % 7 = 1) (n : Nat) :
    ((List.range n).map (fun i : Nat => bucket_key "week" (m0 + 7 * (i : Int)))).Nodup := by
  have hinj : Function.Injective (fun i : Nat => bucket_key "week" (m0 + 7 * (i : Int))) := by
    intro i j hij
    simp [bucket_key] at hij
    have hiw : isoYearWeek (m0 + 7 * (i : Int)) = isoYearWeek (m0 + 7 * (j : Int)) :=
      Prod.ext hij.1 hij.2
    have := isoYearWeek_inj (m0 + 7 * (i : Int)) (m0 + 7 * (j : Int)) (by omega) (by omega) hiw
    omega
  exact List.Nodup.map hinj (List.nodup_range n)

theorem monthKeys_nodup (j0 : Int) (n : Nat) :
    ((List.range n).map
      (fun i : Nat => bucket_key "month" (msOrd (j0 + (i : Int))))).Nodup := by
  have hinj : Function.Injective
      (fun i : Nat => bucket_key "month" (msOrd (j0 + (i : Int)))) := by
    intro i j hij
    simp [bucket_key] at hij
    obtain ⟨h1, h2⟩ := hij
    have pi := msOrd_parts (j0 + (i : Int))
    have pj := msOrd_parts (j0 + (j : Int))
    rw [pi.1, pj.1] at h1
    rw [pi.2.1, pj.2.1] at h2
    omega
  exact List.Nodup.map hinj (List.nodup_range n)

theorem day_cover (s e d : Int) (h1 : s ≤ d) (h2 : d ≤ e) :
    bucket_key "day" d ∈ (List.range (e + 1 - s).toNat).map
      (fun i : Nat => bucket_key "day" (s + (i : Int))) := by
  refine List.mem_map.mpr ⟨(d - s).toNat, List.mem_range.mpr (by omega), ?_⟩
  have harg : s + (((d - s).toNat : Nat) : Int) = d := by omega
  show bucket_key "day" (s + (((d - s).toNat : Nat) : Int)) = bucket_key "day" d
  rw [harg]

theorem week_cover (s e d m0 : Int) (hm0 : m0 = s - (s + 6) % 7) (h1 : s ≤ d) (h2 : d ≤ e) :
    bucket_key "week" d ∈ (List.range ((e + 7 - m0) / 7).toNat).map
      (fun i : Nat => bucket_key "week" (m0 + 7 * (i : Int))) := by
  refine List.mem_map.mpr
    ⟨((d - (d + 6) % 7 - m0) / 7).toNat, List.mem_range.mpr (by omega), ?_⟩
  have harg : m0 + 7 * ((((d - (d + 6) % 7 - m0) / 7).toNat : Nat) : Int)
      = d - (d + 6) % 7 := by omega
  show bucket_key "week" (m0 + 7 * ((((d - (d + 6) % 7 - m0) / 7).toNat : Nat) : Int))
      = bucket_key "week" d
  rw [harg]
  simp [bucket_key, isoYearWeek_monday d]

theorem month_cover (s e d : Int) (h1 : s ≤ d) (h2 : d ≤ e) :
    bucket_key "month" d ∈ (List.range (monthIdx e + 1 - monthIdx s).toNat).map
      (fun i : Nat => bucket_key "month" (msOrd (monthIdx s + (i : Int)))) := by
  have hms := monthIdx_mono s d h1
  have hme := monthIdx_mono d e h2
  refine List.mem_map.mpr
    ⟨(monthIdx d - monthIdx s).toNat, List.mem_range.mpr (by omega), ?_⟩
  have harg : monthIdx s + (((monthIdx d - monthIdx s).toNat : Nat) : Int) = monthIdx d := by
    omega
  show bucket_key "month" (msOrd (monthIdx s + (((monthIdx d - monthIdx s).toNat : Nat) : Int)))
      = bucket_key "month" d
  rw [harg]
  have hp := msOrd_parts (monthIdx d)
  have hv := parts_valid d
  simp only [bucket_key]
  rw [if_neg (by decide), if_neg (by decide), if_neg (by decide), if_neg (by decide)]
  rw [hp.1, hp.2.1]
  have hmi : monthIdx d = 12 * yearOf d + monthOf d := rfl
  rw [hmi]
  refine congrArg₂ BKey.month ?_ ?_
  · omega
  · omega

theorem fetch_mem (txs : List Tx) (uid : Int) (rng : DateRange) (t : Tx)
    (ht : t ∈ fetch_transactions txs uid rng) :
    t ∈ txs ∧ rng.start ≤ t.date ∧ t.date ≤ rng.end_ := by
  unfold fetch_transactions at ht
  have ht2 := (sortBy_perm txLe _).mem_iff.mp ht
  refine ⟨List.mem_of_mem_filter ht2, ?_, ?_⟩
  · have hpred := List.of_mem_filter ht2
    simp only [Bool.and_eq_true, decide_eq_true_eq] at hpred
    exact hpred.1.2
  · have hpred := List.of_mem_filter ht2
    simp only [Bool.and_eq_true, decide_eq_true_eq] at hpred
    exact hpred.2

/-- C5: in `compute_summary`, the trend entries' incomes sum to totals.income
and their expenses sum to totals.expenses, for any transaction table whose
amounts carry at most two decimals (the `Numeric(12,2)` column invariant):
every fetched transaction lands in exactly one emitted bucket (the bucket
labels are distinct and cover every transaction date), and rounding per bucket
and on the totals is the identity on 2-decimal sums. -/
theorem C5_trend_sums (today : Int) (txs : List Tx) (userId : Int)
    (period : Option String) (start? end? : Option Int)
    (hcenti : ∀ t ∈ txs, isCenti t.amount) :
    (((compute_summary today txs userId period start? end?).trend.map fun en => en.income).sum
      = (compute_summary today txs userId period start? end?).totalsIncome) ∧
    (((compute_summary today txs userId period start? end?).trend.map fun en => en.expenses).sum
      = (compute_summary today txs userId period start? end?).totalsExpenses) := by
  have htr : (compute_summary today txs userId period start? end?).trend
      = (if (compute_date_range today period start? end?).1 = "day" then
          buildTrendDay (trendAccum (compute_date_range today period start? end?).1
            (fetch_transactions txs userId (compute_date_range today period start? end?).2))
            (compute_date_range today period start? end?).2.start
            (compute_date_range today period start? end?).2.end_
        else if (compute_date_range today period start? end?).1 = "week" then
          buildTrendWeek (trendAccum (compute_date_range today period start? end?).1
            (fetch_transactions txs userId (compute_date_range today period start? end?).2))
            ((compute_date_range today period start? end?).2.start
              - ((compute_date_range today period start? end?).2.start + 6) % 7)
            (compute_date_range today period start? end?).2.end_
        else
          buildTrendMonth (trendAccum (compute_date_range today period start? end?).1
            (fetch_transactions txs userId (compute_date_range today period start? end?).2))
            (monthStartOrd (compute_date_range today period start? end?).2.start)
            (monthStartOrd (compute_date_range today period start? end?).2.end_)) := rfl
  have hti : (compute_summary today txs userId period start? end?).totalsIncome
      = round2 (totalIncome
          (fetch_transactions txs userId (compute_date_range today period start? end?).2)) := rfl
  have hte : (compute_summary today txs userId period start? end?).totalsExpenses
      = round2 (totalExpenses
          (fetch_transactions txs userId (compute_date_range today period start? end?).2)) := rfl
  rw [htr, hti, hte]
  set rng := (compute_date_range today period start? end?).2 with hrngdef
  set p := (compute_date_range today period start? end?).1 with hpdef
  set ftxs := fetch_transactions txs userId rng with hftxsdef
  have hcf : ∀ t ∈ ftxs, isCenti t.amount := fun t ht =>
    hcenti t (fetch_mem txs userId rng t ht).1
  have hb1 : ∀ t ∈ ftxs, rng.start ≤ t.date := fun t ht => (fetch_mem txs userId rng t ht).2.1
  have hb2 : ∀ t ∈ ftxs, t.date ≤ rng.end_ := fun t ht => (fetch_mem txs userId rng t ht).2.2
  have hI : isCenti (totalIncome ftxs) := isCenti_sum _ (by
    intro q hq
    obtain ⟨t, ht, rfl⟩ := List.mem_map.mp hq
    exact hcf t (List.mem_of_mem_filter ht))
  have hE : isCenti (totalExpenses ftxs) := isCenti_sum _ (by
    intro q hq
    obtain ⟨t, ht, rfl⟩ := List.mem_map.mp hq
    exact isCenti_abs _ (hcf t (List.mem_of_mem_filter ht)))
  rw [round2_centi _ hI, round2_centi _ hE]
  by_cases h1 : p = "day"
  · rw [if_pos h1, h1]
    rw [buildTrendDay_entries (rng.end_ + 1 - rng.start).toNat (trendAccum "day" ftxs)
      rng.start rng.end_ rfl]
    exact sums_over_labels "day" ftxs _ (dayKeys_nodup rng.start _)
      (fun t ht => day_cover rng.start rng.end_ t.date (hb1 t ht) (hb2 t ht)) hcf
  · by_cases h2 : p = "week"
    · rw [if_neg h1, if_pos h2, h2]
      rw [buildTrendWeek_entries ((rng.end_ + 7 - (rng.start - (rng.start + 6) % 7)) / 7).toNat
        (trendAccum "week" ftxs) (rng.start - (rng.start + 6) % 7) rng.end_ rfl]
      exact sums_over_labels "week" ftxs _
        (weekKeys_nodup (rng.start - (rng.start + 6) % 7) (by omega) _)
        (fun t ht => week_cover rng.start rng.end_ t.date (rng.start - (rng.start + 6) % 7)
          rfl (hb1 t ht) (hb2 t ht)) hcf
    · rw [if_neg h1, if_neg h2, monthStartOrd_eq rng.start, monthStartOrd_eq rng.end_]
      rw [buildTrendMonth_entries (monthIdx rng.end_ + 1 - monthIdx rng.start).toNat
        (trendAccum p ftxs) (monthIdx rng.start) (monthIdx rng.end_) rfl]
      have hbk : ∀ d : Int, bucket_key p d = bucket_key "month" d := by
        intro d
        show (if p = "day" then BKey.day d
          else if p = "week" then BKey.week (isoYearWeek d).1 (isoYearWeek d).2
          else BKey.month (yearOf d) (monthOf d)) = bucket_key "month" d
        rw [if_neg h1, if_neg h2]
        simp [bucket_key]
      exact sums_over_labels p ftxs _ (monthKeys_nodup (monthIdx rng.start) _)
        (fun t ht => by
          rw [hbk t.date]
          exact month_cover rng.start rng.end_ t.date (hb1 t ht) (hb2 t ht)) hcf

theorem C5_witness :
    (∀ t ∈ [txC9], isCenti t.amount) ∧
    ((((compute_summary 30 [txC9] 1 none none none).trend.map fun en => en.income).sum
        = (compute_summary 30 [txC9] 1 none none none).totalsIncome) ∧
      (((compute_summary 30 [txC9] 1 none none none).trend.map fun en => en.expenses).sum
        = (compute_summary 30 [txC9] 1 none none none).totalsExpenses)) := by
  have hc : ∀ t ∈ [txC9], isCenti t.amount := by
    intro t ht
    rw [List.mem_singleton.mp ht]
    norm_num [isCenti, txC9]
  exact ⟨hc, C5_trend_sums 30 [txC9] 1 none none none hc⟩
